import Mathlib

/-!
Shallow embedding of the route-schema derivation engine of `express-fs-routes`
(`src/lib/register.ts`, `Engine` class, together with `src/lib/parse-options.ts`,
`src/lib/constants.ts` and `src/lib/utils.ts`).

JavaScript strings are modelled by `String`; the JS string methods used by the
source (`startsWith`, `endsWith`, single-occurrence `replace`, template
concatenation) are modelled over `String.data` character lists.  Node's posix
`path.basename`, `path.dirname` and `path.resolve` are modelled directly.
-/

/-- constants.ts: `SLUG_REGEX = /\[(.*?)\]/gi` is modelled by the scanner
`slugMatchesAux` below; `EXPRESS_PARAMS_TOKEN = ":"`. -/
def EXPRESS_PARAMS_TOKEN : String := ":"

/-- constants.ts: `WILD_CARD_TOKEN = "*"`. -/
def WILD_CARD_TOKEN : String := "*"

/-- JS `value.startsWith(token)`. -/
def jsStartsWith (s pre : String) : Bool :=
  List.isPrefixOf pre.data s.data

/-- JS `value.endsWith(token)`. -/
def jsEndsWith (s suf : String) : Bool :=
  List.isSuffixOf suf.data s.data

/-- JS `s.replace(pat, rep)` with a string pattern: replace the first
occurrence of `pat` (list-level worker). -/
def replaceFirstL (pat rep : List Char) : List Char → List Char
  | [] => if List.isPrefixOf pat [] then rep else []
  | c :: cs =>
    if List.isPrefixOf pat (c :: cs) then rep ++ (c :: cs).drop pat.length
    else c :: replaceFirstL pat rep cs

/-- JS `s.replace(pat, rep)` with a string pattern (first occurrence only). -/
def jsReplaceFirst (s pat rep : String) : String :=
  ⟨replaceFirstL pat.data rep.data s.data⟩

/-- utils.ts `ensureLeadingToken`: prepend `token` unless `value` already
starts with it. -/
def ensureLeadingToken (value token : String) : String :=
  if jsStartsWith value token then value else ⟨token.data ++ value.data⟩

/-- utils.ts `removeFileExtension`: `value.replace(/\.[^/.]+$/, "")` — strip a
final `.ext` whose `ext` is non-empty and contains neither `/` nor `.`. -/
def removeFileExtension (value : String) : String :=
  let r := value.data.reverse
  let ext := r.takeWhile (fun c => !(c == '.') && !(c == '/'))
  match r.drop ext.length with
  | '.' :: rest => if ext.isEmpty then value else ⟨rest.reverse⟩
  | _ => value

/-- JS `s.replace(/\\/g, "/")`. -/
def backslashToSlash (s : String) : String :=
  ⟨s.data.map (fun c => if c == '\\' then '/' else c)⟩

/-- JS `s.replace(/\/$/, "")`: drop one trailing slash if present. -/
def stripOneTrailingSlash (s : String) : String :=
  if jsEndsWith s "/" then ⟨s.data.dropLast⟩ else s

/-- Node `path.posix.basename` (list-level worker): last segment after
stripping trailing slashes. -/
def posixBasenameL (l : List Char) : List Char :=
  ((l.reverse.dropWhile (fun c => c == '/')).takeWhile
      (fun c => !(c == '/'))).reverse

/-- Node `path.posix.basename`. -/
def posixBasename (p : String) : String :=
  ⟨posixBasenameL p.data⟩

/-- Node `path.posix.dirname` (list-level worker): everything before the
last separator (the separator search never considers index 0, hence the
special cases). -/
def posixDirnameL (l : List Char) : List Char :=
  if l.isEmpty then ['.'] else
  let hasRoot := l.head? == some '/'
  let r1 := l.reverse.dropWhile (fun c => c == '/')
  match r1.dropWhile (fun c => !(c == '/')) with
  | [] => if hasRoot then ['/'] else ['.']
  | _ :: r3 =>
    if r3.isEmpty then (if hasRoot then ['/'] else ['.'])
    else if r3 == ['/'] && hasRoot then ['/', '/']
    else r3.reverse

/-- Node `path.posix.dirname`. -/
def posixDirname (p : String) : String :=
  ⟨posixDirnameL p.data⟩

/-- Split a character list on `/` (list-level model of `String.split`). -/
def splitSlashes : List Char → List (List Char)
  | [] => [[]]
  | c :: cs =>
    match splitSlashes cs with
    | [] => [[c]]
    | seg :: rest => if c == '/' then [] :: seg :: rest else (c :: seg) :: rest

/-- Join segments with `/` (list-level model of `String.intercalate`). -/
def joinSegs : List (List Char) → List Char
  | [] => []
  | [s] => s
  | s :: rest => s ++ '/' :: joinSegs rest

/-- Node `path.posix.resolve(base, rel)` for an absolute `base`: join and
normalize `.`, `..` and duplicate separators. -/
def posixResolve (base rel : String) : String :=
  let segs := splitSlashes (base.data ++ '/' :: rel.data)
  let stack := segs.foldl
    (fun st s =>
      if s.isEmpty || s == ['.'] then st
      else if s == ['.', '.'] then st.dropLast
      else st ++ [s]) []
  ⟨'/' :: joinSegs stack⟩

/-- register.ts `Engine.resolveFilePath`: absolute paths pass through,
relative ones resolve against the engine's current directory. -/
def resolveFilePath (currentDirectory filePath : String) : String :=
  if jsStartsWith filePath "/" then filePath
  else posixResolve currentDirectory filePath

/-- Scanner for `SLUG_REGEX = /\[(.*?)\]/gi` driven by the
`while ((match = SLUG_REGEX.exec(url)) !== null)` loop of
`Engine.paramsReplacement`: successive non-overlapping matches, each a `[`,
a shortest run of characters other than `]` and newline, and the closing `]`.
Returns `(whole match, captured name)` pairs, left to right.  The fuel
argument starts at the character count and bounds the recursion. -/
def slugMatchesAux : Nat → List Char → List (List Char × List Char)
  | 0, _ => []
  | _ + 1, [] => []
  | fuel + 1, c :: cs =>
    if c == '[' then
      let inner := cs.takeWhile (fun x => !(x == ']') && !(x == '\n'))
      match cs.drop inner.length with
      | ']' :: rest => ('[' :: (inner ++ [']']), inner) :: slugMatchesAux fuel rest
      | _ => slugMatchesAux fuel cs
    else slugMatchesAux fuel cs

/-- All slug matches of a URL (see `slugMatchesAux`). -/
def slugMatches (cs : List Char) : List (List Char × List Char) :=
  slugMatchesAux cs.length cs

/-- register.ts `Engine.paramsReplacement`: replace every slug `[name]` with
`:name`, appending `(pattern)` when `paramsRegex[name]` is truthy; returns the
URL unchanged when `paramsRegex` is `undefined`.  `paramsRegex` is an ordered
key/value list, matching a JS object's own string keys. -/
def slugReplacer (pr : List (String × String)) (m : List Char × List Char) :
    String :=
  EXPRESS_PARAMS_TOKEN ++ (⟨m.2⟩ : String) ++
    (match List.lookup (⟨m.2⟩ : String) pr with
     | some v => if v == "" then "" else "(" ++ v ++ ")"
     | none => "")

def paramsReplacement (url : String) (paramsRegex : Option (List (String × String))) :
    String :=
  match paramsRegex with
  | none => url
  | some pr =>
    (slugMatches url.data).foldl
      (fun modifiedUrl m => jsReplaceFirst modifiedUrl ⟨m.1⟩ (slugReplacer pr m))
      url

/-- Resolved per-file route options (the result of
`parseRouteHandlerOptions`, as consumed by the engine): `environments` is
`null` or a non-empty array, `isIndex` is `null` / `true` / `false`, and
`paramsRegex` is a key/value object (`none` models `undefined`, only
reachable for the `{}` placeholder options of a schema without a handler). -/
structure RouterOpts where
  environments : Option (List String)
  isIndex : Option Bool
  skip : Bool
  paramsRegex : Option (List (String × String))
deriving DecidableEq

/-- The `{}` placeholder `route_options` of a base schema (every property
access on it yields `undefined`). -/
def emptyRouteOptionsObj : RouterOpts :=
  { environments := none, isIndex := none, skip := false, paramsRegex := none }

/-- Resolved global registration options (the fields of
`parseRouteRegistrationOptions` output that the engine reads).  `appMount`
may be a string or `null` (`none`); `environmentRoutes` is `undefined`
(`none`) or an ordered map from environment name to directory list, matching
the source's `for..in` iteration order. -/
structure RegOptions where
  appMount : Option String
  indexNames : List String
  environmentRoutes : Option (List (String × List String))
  strictMode : Bool
deriving DecidableEq

/-- `DEFAULT_OPTIONS` restricted to the modelled fields. -/
def defaultRegOptions : RegOptions :=
  { appMount := some "", indexNames := ["index.js"], environmentRoutes := none,
    strictMode := false }

/-- JS `!!options.appMount`: `null` and `""` are falsy. -/
def appMountTruthy : Option String → Bool
  | none => false
  | some s => !(s == "")

/-- JS `base !== this.options.appMount` where `base` is a string and
`appMount` may be `null`. -/
def appMountNeq (base : String) : Option String → Bool
  | none => true
  | some m => !(base == m)

/-- The `for (const indexName of this.options.indexNames)` loop of
`Engine.createRouteUrl` (`isIndex === null` branch): on the first extension-
stripped index name equal to the basename, replace the path with its parent
directory and break. -/
def indexCollapseLoop : List String → String → String
  | [], routePath => routePath
  | indexName :: rest, routePath =>
    if posixBasename routePath == removeFileExtension indexName then
      posixDirname routePath
    else indexCollapseLoop rest routePath

/-- The `isIndex` block of `Engine.createRouteUrl`: `null` defers to
`indexNames` matching, `true` strips the first occurrence of
`"/" + basename` unless it equals `appMount`, `false` does nothing. -/
def indexStep (opts : RegOptions) (ro : RouterOpts) (routePath : String) : String :=
  match ro.isIndex with
  | none => indexCollapseLoop opts.indexNames routePath
  | some true =>
    let basename := posixBasename routePath
    let base := stripOneTrailingSlash (ensureLeadingToken basename "/")
    if appMountNeq base opts.appMount then jsReplaceFirst routePath base ""
    else routePath
  | some false => routePath

/-- `Engine.createRouteUrl` up to (excluding) the final
`ensureLeadingToken(routePath, "/")`: extension strip, root-directory strip,
separator normalization, app-mount prefixing, index handling, trailing-slash
strip, slug replacement — in the source's order. -/
def createRouteUrlPre (currentDirectory : String) (opts : RegOptions)
    (ro : RouterOpts) (absolutePath : String) : String :=
  let r1 := removeFileExtension absolutePath
  let r2 := if jsStartsWith r1 currentDirectory then
      jsReplaceFirst r1 currentDirectory "" else r1
  let r3 := backslashToSlash r2
  let r4 := if appMountTruthy opts.appMount then
      ensureLeadingToken r3 (ensureLeadingToken (opts.appMount.getD "") "/")
    else r3
  let r5 := indexStep opts ro r4
  let r6 := if jsEndsWith r5 "/" then stripOneTrailingSlash r5 else r5
  paramsReplacement r6 ro.paramsRegex

/-- `Engine.createRouteUrl`. -/
def createRouteUrl (currentDirectory : String) (opts : RegOptions)
    (ro : RouterOpts) (absolutePath : String) : String :=
  ensureLeadingToken (createRouteUrlPre currentDirectory opts ro absolutePath) "/"

/-- Modelled from the spec: the step order claimed in section 4.2 (and claim
C5) — extension strip, then index collapsing, then root strip, separator
normalization, app-mount prefixing, trailing-slash strip, slug rewriting,
leading slash.  The per-step behaviour follows the spec's wording; for
`isIndex` explicitly true the basename is stripped by taking the parent
directory unless the stripped basename segment equals the app mount.  Used
only to compare the claimed order with the source order. -/
def createRouteUrlClaimedOrder (currentDirectory : String) (opts : RegOptions)
    (ro : RouterOpts) (absolutePath : String) : String :=
  let r1 := removeFileExtension absolutePath
  let r2 :=
    match ro.isIndex with
    | none => indexCollapseLoop opts.indexNames r1
    | some true =>
      let base := stripOneTrailingSlash (ensureLeadingToken (posixBasename r1) "/")
      if appMountNeq base opts.appMount then posixDirname r1 else r1
    | some false => r1
  let r3 := if jsStartsWith r2 currentDirectory then
      jsReplaceFirst r2 currentDirectory "" else r2
  let r4 := backslashToSlash r3
  let r5 := if appMountTruthy opts.appMount then
      ensureLeadingToken r4 (ensureLeadingToken (opts.appMount.getD "") "/")
    else r4
  let r6 := if jsEndsWith r5 "/" then stripOneTrailingSlash r5 else r5
  ensureLeadingToken (paramsReplacement r6 ro.paramsRegex) "/"

/-- The body of the inner `for (const filePath of directories)` loop of
`Engine.environmentBasedRegistration`: a matching directory prefix updates
the verdict only when it is not already `true`
(`proceed === false || proceed === null`). -/
def envDirStep (currentDirectory currentEnv absolutePath nodeEnv : String)
    (a : Option Bool) (filePath : String) : Option Bool :=
  if jsStartsWith absolutePath (resolveFilePath currentDirectory filePath) then
    match a with
    | some true => a
    | _ => some (nodeEnv == currentEnv)
  else a

/-- One step of the outer `for (const nodeEnv in environmentRoutes)` scan. -/
def envScanStep (currentDirectory currentEnv absolutePath : String)
    (acc : Option Bool) (entry : String × List String) : Option Bool :=
  entry.2.foldl (envDirStep currentDirectory currentEnv absolutePath entry.1) acc

/-- The full directory scan of `Engine.environmentBasedRegistration` (`proceed`
starts as `null` = `none`).  Directory lists are modelled as string lists;
the source skips entries whose value is not an array. -/
def envRoutesScan (currentDirectory currentEnv absolutePath : String)
    (routes : List (String × List String)) : Option Bool :=
  routes.foldl (envScanStep currentDirectory currentEnv absolutePath) none

/-- `Engine.environmentBasedRegistration` as a pure verdict: `true` means the
route proceeds to registration.  The process-wide `NODE_ENV` read
(`getCurrentWorkingEnvironment`) is threaded as `currentEnv`. -/
def environmentBasedRegistration (opts : RegOptions) (currentEnv : String)
    (currentDirectory : String) (routeOptions : Option RouterOpts)
    (absolutePath : String) : Bool :=
  match routeOptions with
  | none => true
  | some ro =>
    match ro.environments with
    | some envs => envs.any (fun env => env == WILD_CARD_TOKEN || env == currentEnv)
    | none =>
      match opts.environmentRoutes with
      | none => true
      | some routes =>
        if routes.isEmpty then true
        else
          match envRoutesScan currentDirectory currentEnv absolutePath routes with
          | none => true
          | some proceed => proceed

/-- One file node of the flattened directory tree (`flattenTreeNode` output,
`type = "file"`). -/
structure TreeNodeL where
  absolute_path : String
deriving DecidableEq

/-- One layer of an express handler's `stack`: `layer.route.path`, the keys of
`layer.route.methods`, and `layer.route.stack.length`. -/
structure LayerSrc where
  routePath : String
  methods : List String
  stackLength : Nat
deriving DecidableEq

/-- A loaded route handler: its express layer stack and its parsed
`routeOptions`. -/
structure HandlerL where
  stack : List LayerSrc
  routeOptions : RouterOpts
deriving DecidableEq

/-- Schema status strings. -/
inductive StatusL where
  | registered
  | skipped
  | error
deriving DecidableEq

/-- One `RouteLayer`: method (first key of `route.methods`, else "unknown"),
middleware count, extended path and complete path. -/
structure RouteLayerL where
  method : String
  middleware_count : Nat
  extended_path : String
  complete_path : String
deriving DecidableEq

/-- One `RouteSchema` record. -/
structure RouteSchemaL where
  absolute_path : String
  base_path : Option String
  layers : List RouteLayerL
  route_options : RouterOpts
  status : Option StatusL
  error : Option String
  message : Option String
deriving DecidableEq

/-- Outcome of `Engine.requireHandler` (the dynamic loader, an external
collaborator): a thrown error, a `null` handler (no usable function export /
empty module), or a handler. -/
inductive LoadResult where
  | failure (msg : String)
  | nullHandler
  | handler (h : HandlerL)
deriving DecidableEq

/-- `Engine.createRouteSchema` (with the modifier applied by the caller): a
`null` handler or an empty stack yields the bare schema (`base_path = null`,
`layers = []`, `route_options = {}`); otherwise the base path and one layer
per stack entry are computed. -/
def createRouteSchema (currentDirectory : String) (opts : RegOptions)
    (routeHandler : Option HandlerL) (node : TreeNodeL) : RouteSchemaL :=
  let baseSchema : RouteSchemaL :=
    { absolute_path := node.absolute_path, base_path := none, layers := [],
      route_options := emptyRouteOptionsObj, status := none, error := none,
      message := none }
  match routeHandler with
  | none => baseSchema
  | some h =>
    if h.stack.isEmpty then baseSchema
    else
      let basePath := createRouteUrl currentDirectory opts h.routeOptions
        node.absolute_path
      let layers := h.stack.map (fun layer =>
        ({ method := (layer.methods.head?).getD "unknown",
           middleware_count := layer.stackLength,
           extended_path := layer.routePath,
           complete_path := (if layer.routePath == "/" then basePath
             else basePath ++ layer.routePath) } : RouteLayerL))
      { baseSchema with
        layers := layers,
        base_path := some basePath,
        route_options := h.routeOptions }

/-- `Engine.useRouteSchema` with the default (identity) `beforeRegistration`
hook: the skip flag wins, then the environment gate decides between
`registered` (the router binding `assignMiddleware` being an external side
effect) and `skipped`. -/
def useRouteSchemaModel (opts : RegOptions) (currentEnv currentDirectory : String)
    (routerSchema : RouteSchemaL) : RouteSchemaL :=
  if routerSchema.route_options.skip then
    { routerSchema with
      status := some .skipped,
      message := some "Route was skipped by the `routeOptions.skip` flag" }
  else if environmentBasedRegistration opts currentEnv currentDirectory
      (some routerSchema.route_options) routerSchema.absolute_path then
    { routerSchema with
      status := some .registered,
      message := some ("Route was registered successfully for " ++ currentEnv) }
  else
    { routerSchema with
      status := some .skipped,
      message := some ("Route was skipped for " ++ currentEnv) }

/-- The non-throwing body of `Engine.registerRoute` for a given loader
outcome: the schema record that is appended to the registry. -/
def registerRouteOk (currentDirectory : String) (opts : RegOptions)
    (currentEnv : String) (node : TreeNodeL) (load : LoadResult) : RouteSchemaL :=
  match load with
  | .failure msg =>
    { createRouteSchema currentDirectory opts none node with
      status := some .error,
      error := some msg }
  | .nullHandler =>
    { createRouteSchema currentDirectory opts none node with
      status := some .skipped,
      error := some "Most likely forgot to export a default function." }
  | .handler h =>
    useRouteSchemaModel opts currentEnv currentDirectory
      (createRouteSchema currentDirectory opts (some h) node)

/-- `Engine.registerRoute`: in strict mode a loader failure is re-raised
(aborting the run), otherwise every outcome degrades to a schema record. -/
def registerRouteModel (currentDirectory : String) (opts : RegOptions)
    (currentEnv : String) (node : TreeNodeL) (load : LoadResult) :
    Except String RouteSchemaL :=
  match load with
  | .failure msg =>
    if opts.strictMode then
      Except.error ("Failed to register route for file '" ++ node.absolute_path ++
        "': " ++ msg)
    else Except.ok (registerRouteOk currentDirectory opts currentEnv node
      (.failure msg))
  | load => Except.ok (registerRouteOk currentDirectory opts currentEnv node load)

/-- `RouteEngine.run` over an already flattened file list, with the dynamic
loader abstracted as a function from node to outcome: each file contributes
exactly one registry record; a strict-mode failure aborts the whole run. -/
def runModel (currentDirectory : String) (opts : RegOptions) (currentEnv : String)
    (nodes : List TreeNodeL) (loader : TreeNodeL → LoadResult) :
    Except String (List RouteSchemaL) :=
  nodes.mapM (fun node => registerRouteModel currentDirectory opts currentEnv node
    (loader node))

/-- `DEFAULT_ROUTE_OPTIONS` after parsing (`environments: null`,
`isIndex: null`, `skip: false`, `paramsRegex: {}`). -/
def defaultRouterOpts : RouterOpts :=
  { environments := none, isIndex := none, skip := false, paramsRegex := some [] }

/-- The global configuration of claim C6: `appMount = "/api"`, all other
fields at their defaults. -/
def cfgApi : RegOptions :=
  { defaultRegOptions with appMount := some "/api" }

/-- A JavaScript runtime value, as far as the option resolvers in
parse-options.ts inspect one: `undefined` is `undefined`, `func` an arbitrary
function, `regexp` a `RegExp` with its `source` text; objects are ordered
own-property lists. -/
inductive JSValue where
  | undefined
  | null
  | bool (b : Bool)
  | num (n : Int)
  | str (s : String)
  | arr (elems : List JSValue)
  | obj (fields : List (String × JSValue))
  | func
  | regexp (source : String)

/-- utils.ts `isUndefined`. -/
def isUndefinedJS : JSValue → Bool
  | .undefined => true
  | _ => false

/-- utils.ts `isArray`. -/
def isArrayJS : JSValue → Bool
  | .arr _ => true
  | _ => false

/-- utils.ts `isObject`: `typeof value === "object"`, not `null`, not an
array (a `RegExp` is an object). -/
def isObjectJS : JSValue → Bool
  | .obj _ => true
  | .regexp _ => true
  | _ => false

/-- utils.ts `isString`. -/
def isStringJS : JSValue → Bool
  | .str _ => true
  | _ => false

/-- utils.ts `isFunction`. -/
def isFunctionJS : JSValue → Bool
  | .func => true
  | _ => false

/-- `isBoolean` (parse-options.ts type check). -/
def isBooleanJS : JSValue → Bool
  | .bool _ => true
  | _ => false

/-- JS `value === null`. -/
def isNullJS : JSValue → Bool
  | .null => true
  | _ => false

/-- JS `value === false`. -/
def isFalseJS : JSValue → Bool
  | .bool false => true
  | _ => false

/-- JS truthiness of a value (used by utils.ts `isEmpty` for non-objects). -/
def jsTruthy : JSValue → Bool
  | .undefined => false
  | .null => false
  | .bool b => b
  | .num n => !(n == 0)
  | .str s => !(s == "")
  | .arr _ => true
  | .obj _ => true
  | .func => true
  | .regexp _ => true

/-- utils.ts `isEmpty`: empty array, object without own keys (a `RegExp` has
none), or falsy primitive. -/
def isEmptyJS : JSValue → Bool
  | .arr elems => elems.isEmpty
  | .obj fields => fields.isEmpty
  | .regexp _ => true
  | v => !(jsTruthy v)

/-- The own enumerable properties of a value, as `Object.assign` copies
them (a `RegExp` instance has none). -/
def ownProps : JSValue → List (String × JSValue)
  | .obj fields => fields
  | _ => []

/-- Property lookup on an ordered field list. -/
def jsLookupL (fields : List (String × JSValue)) (key : String) : Option JSValue :=
  List.lookup key fields

/-- JS property read `fields[key]`: `undefined` when absent. -/
def jsGetL (fields : List (String × JSValue)) (key : String) : JSValue :=
  (jsLookupL fields key).getD .undefined

/-- JS property read on a value (`undefined` for non-objects here; the
resolvers only read properties of values that passed `isObject`). -/
def jsGet (v : JSValue) (key : String) : JSValue :=
  match v with
  | .obj fields => jsGetL fields key
  | _ => .undefined

/-- JS property write `o[key] = v` on an object with unique keys: overwrite
in place, else append. -/
def objSet (fields : List (String × JSValue)) (key : String) (v : JSValue) :
    List (String × JSValue) :=
  if (jsLookupL fields key).isSome then
    fields.map (fun kv => if kv.1 == key then (kv.1, v) else kv)
  else fields ++ [(key, v)]

/-- `Object.assign({}, defaults, options)`: copy the defaults, then write
every own property of `options` over them. -/
def objAssign (defaults fields : List (String × JSValue)) :
    List (String × JSValue) :=
  fields.foldl (fun acc kv => objSet acc kv.1 kv.2) defaults

/-- One `if (!check(opts.key)) { opts.key = default }` clamp of
parse-options.ts. -/
def clampStep (fields : List (String × JSValue)) (key : String)
    (check : JSValue → Bool) (dflt : JSValue) : List (String × JSValue) :=
  if check (jsGetL fields key) then fields else objSet fields key dflt

/-- constants.ts `DEFAULT_ROUTE_OPTIONS` as a JS object. -/
def DEFAULT_ROUTE_OPTIONS_FIELDS : List (String × JSValue) :=
  [("environments", .null), ("isIndex", .null), ("skip", .bool false),
   ("paramsRegex", .obj []), ("metadata", .obj [])]

/-- constants.ts `DEFAULT_OPTIONS` as a JS object (`environmentRoutes` is
present with value `undefined`; hooks are function values). -/
def DEFAULT_OPTIONS_FIELDS : List (String × JSValue) :=
  [("directory", .str "routes"), ("appMount", .str ""),
   ("defaultRouteMetadata", .obj []), ("environmentRoutes", .undefined),
   ("indexNames", .arr [.str "index.js"]), ("output", .str ".fs-routes"),
   ("silent", .bool false), ("strictMode", .bool false),
   ("redactOutputFilePaths", .bool false), ("beforeRegistration", .func),
   ("customMiddleware", .null), ("interceptLayerStack", .null)]

/-- The in-place cleaning loop over `options.paramsRegex` (field-list form):
string values stay, `RegExp` values are replaced by their `source`,
everything else is deleted. -/
def cleanParamsRegexFields (fields : List (String × JSValue)) :
    List (String × JSValue) :=
  fields.filterMap (fun kv =>
    match kv.2 with
    | .str s => some (kv.1, .str s)
    | .regexp src => some (kv.1, .str src)
    | _ => none)

/-- The in-place cleaning loop over `options.paramsRegex`. -/
def cleanParamsRegex : JSValue → JSValue
  | .obj fields => .obj (cleanParamsRegexFields fields)
  | v => v

/-- The `environments` block of `parseRouteHandlerOptions`: a defined string
is promoted to a one-element array, an empty or non-array value (and an
undefined one) reverts to the `null` default, a non-empty array passes
through. -/
def normalizeEnvironments (envVal : JSValue) : JSValue :=
  if !(isUndefinedJS envVal) then
    if isStringJS envVal then JSValue.arr [envVal]
    else if !(isArrayJS envVal) || isEmptyJS envVal then JSValue.null
    else envVal
  else JSValue.null

/-- The `paramsRegex` block of `parseRouteHandlerOptions`: a non-empty
object is cleaned in place (the merged object shares the reference),
anything else resets the field to `{}`. -/
def normalizeParamsRegex (pr : JSValue) : JSValue :=
  if !(isEmptyJS pr) && isObjectJS pr then cleanParamsRegex pr
  else .obj []

/-- parse-options.ts `parseRouteHandlerOptions`, field-list form: merge over
`DEFAULT_ROUTE_OPTIONS`, normalize `environments` (single string promoted,
empty or non-array reverted to `null`), clean `paramsRegex` (shared-reference
mutation of the merged object), default `metadata`. -/
def parseRouteHandlerFields (options : JSValue) : List (String × JSValue) :=
  if !(isObjectJS options) then DEFAULT_ROUTE_OPTIONS_FIELDS
  else
    let opts := objAssign DEFAULT_ROUTE_OPTIONS_FIELDS (ownProps options)
    let opts := objSet opts "environments"
      (normalizeEnvironments (jsGetL opts "environments"))
    let opts := objSet opts "paramsRegex"
      (normalizeParamsRegex (jsGet options "paramsRegex"))
    let opts :=
      if !(isObjectJS (jsGet options "metadata")) then
        objSet opts "metadata" (.obj [])
      else opts
    opts

/-- parse-options.ts `parseRouteHandlerOptions`. -/
def parseRouteHandlerOptions (options : JSValue) : JSValue :=
  .obj (parseRouteHandlerFields options)

/-- The per-field type checks and defaults of
`parseRouteRegistrationOptions`, one entry per `if`-statement of the source,
in source order: key, type check, substituted default. -/
def REGISTRATION_FIELD_CHECKS : List (String × (JSValue → Bool) × JSValue) :=
  [("directory", isStringJS, .str "routes"),
   ("appMount", fun v => isStringJS v || isNullJS v, .str ""),
   ("indexNames", isArrayJS, .arr [.str "index.js"]),
   ("output", fun v => isStringJS v || isFalseJS v || isNullJS v,
     .str ".fs-routes"),
   ("environmentRoutes", fun v => isObjectJS v || isUndefinedJS v, .obj []),
   ("redactOutputFilePaths", isBooleanJS, .bool false),
   ("strictMode", isBooleanJS, .bool false),
   ("routeMetadata", isObjectJS, .obj []),
   ("beforeRegistration", isFunctionJS, .func),
   ("customMiddleware", isFunctionJS, .null),
   ("interceptLayerStack", isFunctionJS, .null)]

/-- parse-options.ts `parseRouteRegistrationOptions`, field-list form: merge
over `DEFAULT_OPTIONS`, then clamp each known field to its documented
default when its type check fails (`REGISTRATION_FIELD_CHECKS` lists the
source's `if`-statements in order). -/
def parseRouteRegistrationFields (options : JSValue) : List (String × JSValue) :=
  if !(isObjectJS options) then DEFAULT_OPTIONS_FIELDS
  else
    REGISTRATION_FIELD_CHECKS.foldl
      (fun fs spec => clampStep fs spec.1 spec.2.1 spec.2.2)
      (objAssign DEFAULT_OPTIONS_FIELDS (ownProps options))

/-- parse-options.ts `parseRouteRegistrationOptions`. -/
def parseRouteRegistrationOptions (options : JSValue) : JSValue :=
  .obj (parseRouteRegistrationFields options)

/-! ## Lemmas and claim theorems -/

theorem envDirStep_true (cd env p e fp : String) :
    envDirStep cd env p e (some true) fp = some true := by
  unfold envDirStep
  split <;> rfl

theorem envScanStep_true (cd env p : String) (entry : String × List String) :
    envScanStep cd env p (some true) entry = some true := by
  obtain ⟨e, dirs⟩ := entry
  unfold envScanStep
  induction dirs with
  | nil => rfl
  | cons d ds ih =>
    rw [List.foldl_cons, envDirStep_true]
    exact ih

theorem envRoutesScan_true_append (cd env p : String)
    (l₁ l₂ : List (String × List String))
    (h : envRoutesScan cd env p l₁ = some true) :
    envRoutesScan cd env p (l₁ ++ l₂) = some true := by
  unfold envRoutesScan at h ⊢
  rw [List.foldl_append, h]
  induction l₂ with
  | nil => rfl
  | cons e es ih =>
    rw [List.foldl_cons, envScanStep_true]
    exact ih

theorem envDirStep_nomatch (cd env p e fp : String) (a : Option Bool)
    (h : jsStartsWith p (resolveFilePath cd fp) = false) :
    envDirStep cd env p e a fp = a := by
  unfold envDirStep
  rw [h]
  rfl

theorem envScanStep_nomatch (cd env p : String) (entry : String × List String)
    (a : Option Bool)
    (h : ∀ dir ∈ entry.2, jsStartsWith p (resolveFilePath cd dir) = false) :
    envScanStep cd env p a entry = a := by
  obtain ⟨e, dirs⟩ := entry
  unfold envScanStep
  induction dirs generalizing a with
  | nil => rfl
  | cons d ds ih =>
    rw [List.foldl_cons, envDirStep_nomatch _ _ _ _ _ _ (h d (by simp))]
    exact ih a (fun dir hdir => h dir (by simpa using Or.inr hdir))

theorem envRoutesScan_nomatch (cd env p : String)
    (routes : List (String × List String))
    (h : ∀ entry ∈ routes, ∀ dir ∈ entry.2,
      jsStartsWith p (resolveFilePath cd dir) = false) :
    envRoutesScan cd env p routes = none := by
  unfold envRoutesScan
  induction routes with
  | nil => rfl
  | cons e es ih =>
    rw [List.foldl_cons, envScanStep_nomatch _ _ _ _ _ (h e (by simp))]
    exact ih (fun entry hentry => h entry (by simpa using Or.inr hentry))

/-- C1: when the resolved options carry an explicit `environments` list, the
environment gate returns true exactly when the list contains the wild-card
token or the current environment, and the `environmentRoutes` map of the
global configuration has no influence on the verdict. -/
theorem envGateExplicitList_c1 (opts : RegOptions)
    (currentEnv currentDirectory : String) (ro : RouterOpts)
    (absolutePath : String) (envs : List String)
    (h : ro.environments = some envs) :
    (environmentBasedRegistration opts currentEnv currentDirectory (some ro)
        absolutePath = true ↔ WILD_CARD_TOKEN ∈ envs ∨ currentEnv ∈ envs) ∧
    ∀ er, environmentBasedRegistration { opts with environmentRoutes := er }
        currentEnv currentDirectory (some ro) absolutePath
      = environmentBasedRegistration opts currentEnv currentDirectory (some ro)
        absolutePath := by
  constructor
  case right => intro er; simp only [environmentBasedRegistration, h]
  simp only [environmentBasedRegistration, h]
  simp only [List.any_eq_true, Bool.or_eq_true, beq_iff_eq]
  constructor
  · rintro ⟨x, hx, rfl | rfl⟩
    · exact Or.inl hx
    · exact Or.inr hx
  · rintro (hmem | hmem)
    · exact ⟨_, hmem, Or.inl rfl⟩
    · exact ⟨_, hmem, Or.inr rfl⟩

theorem envGateExplicitList_c1_witness :
    (environmentBasedRegistration defaultRegOptions "development" "/routes"
        (some { defaultRouterOpts with environments := some ["*"] })
        "/routes/a.js" = true
      ↔ WILD_CARD_TOKEN ∈ ["*"] ∨ "development" ∈ ["*"]) ∧
    ∀ er, environmentBasedRegistration
        { defaultRegOptions with environmentRoutes := er } "development"
        "/routes" (some { defaultRouterOpts with environments := some ["*"] })
        "/routes/a.js"
      = environmentBasedRegistration defaultRegOptions "development" "/routes"
        (some { defaultRouterOpts with environments := some ["*"] })
        "/routes/a.js" :=
  envGateExplicitList_c1 defaultRegOptions "development" "/routes"
    { defaultRouterOpts with environments := some ["*"] } "/routes/a.js" ["*"] rfl

/-- C2: in the directory-scan fallback of the environment gate (no per-file
`environments` list), a `true` verdict found by an earlier entry of
`environmentRoutes` is never overwritten by later entries; a `false` verdict
is overwritten by a later entry whose key equals the current environment and
whose directory is a prefix of the source path; and when no configured
directory is a prefix of the source path the gate returns true. -/
theorem envGateDirectoryScan_c2 (opts : RegOptions)
    (currentEnv currentDirectory : String) (ro : RouterOpts) (p : String)
    (h : ro.environments = none) :
    (∀ l₁ l₂, envRoutesScan currentDirectory currentEnv p l₁ = some true →
      environmentBasedRegistration
          { opts with environmentRoutes := some (l₁ ++ l₂) } currentEnv
          currentDirectory (some ro) p = true) ∧
    (∀ l₁ d, envRoutesScan currentDirectory currentEnv p l₁ = some false →
      jsStartsWith p (resolveFilePath currentDirectory d) = true →
      environmentBasedRegistration
          { opts with environmentRoutes := some (l₁ ++ [(currentEnv, [d])]) }
          currentEnv currentDirectory (some ro) p = true) ∧
    (∀ routes, (∀ entry ∈ routes, ∀ dir ∈ entry.2,
        jsStartsWith p (resolveFilePath currentDirectory dir) = false) →
      environmentBasedRegistration { opts with environmentRoutes := some routes }
          currentEnv currentDirectory (some ro) p = true) := by
  refine ⟨?_, ?_, ?_⟩
  · intro l₁ l₂ hscan
    have hne : l₁ ≠ [] := by
      rintro rfl
      simp [envRoutesScan] at hscan
    have hemp : (l₁ ++ l₂).isEmpty = false := by
      cases l₁ with
      | nil => exact absurd rfl hne
      | cons a l => rfl
    simp [environmentBasedRegistration, h, hemp,
      envRoutesScan_true_append _ _ _ _ _ hscan]
  · intro l₁ d hscan hpre
    have hne : l₁ ≠ [] := by
      rintro rfl
      simp [envRoutesScan] at hscan
    have hscan2 : envRoutesScan currentDirectory currentEnv p
        (l₁ ++ [(currentEnv, [d])]) = some true := by
      unfold envRoutesScan at hscan ⊢
      rw [List.foldl_append, hscan]
      show envScanStep currentDirectory currentEnv p (some false)
        (currentEnv, [d]) = some true
      unfold envScanStep
      rw [List.foldl_cons]
      unfold envDirStep
      rw [hpre]
      simp
    have hemp : (l₁ ++ [(currentEnv, [d])]).isEmpty = false := by
      cases l₁ with
      | nil => exact absurd rfl hne
      | cons a l => rfl
    simp [environmentBasedRegistration, h, hemp, hscan2]
  · intro routes hnone
    cases hr : routes.isEmpty with
    | true => simp [environmentBasedRegistration, h, hr]
    | false =>
      simp [environmentBasedRegistration, h, hr,
        envRoutesScan_nomatch _ _ _ _ hnone]

theorem envGateDirectoryScan_c2_witness :
    environmentBasedRegistration
        { defaultRegOptions with
          environmentRoutes := some [("development", ["users"]), ("production", ["users"])] }
        "production" "/r" (some defaultRouterOpts) "/r/users/a.js" = true :=
  (envGateDirectoryScan_c2 defaultRegOptions "production" "/r"
      defaultRouterOpts "/r/users/a.js" rfl).2.1 [("development", ["users"])]
    "users" (by decide) (by decide)

theorem slugMatchesAux_nil_of_no_bracket (fuel : Nat) (cs : List Char)
    (h : '[' ∉ cs) : slugMatchesAux fuel cs = [] := by
  induction fuel generalizing cs with
  | zero => rfl
  | succ n ih =>
    cases cs with
    | nil => rfl
    | cons c cs' =>
      have hc : (c == '[') = false := by
        simp only [beq_eq_false_iff_ne, ne_eq]
        rintro rfl
        exact h (List.mem_cons_self _ _)
      simp only [slugMatchesAux, hc, Bool.false_eq_true, if_false]
      exact ih cs' (fun hmem => h (List.mem_cons_of_mem _ hmem))

/-- C3 counterexample: slug rewriting is not idempotent when a constraint
pattern itself contains bracket characters — the second pass re-matches the
bracket inside the inserted constraint. -/
theorem slugRewriteIdempotence_c3_counterexample :
    paramsReplacement "/users/[id]" (some [("id", "user_[0-9]+")])
        = "/users/:id(user_[0-9]+)" ∧
    paramsReplacement (paramsReplacement "/users/[id]"
          (some [("id", "user_[0-9]+")])) (some [("id", "user_[0-9]+")])
        = "/users/:id(user_:0-9+)" ∧
    paramsReplacement (paramsReplacement "/users/[id]"
          (some [("id", "user_[0-9]+")])) (some [("id", "user_[0-9]+")])
      ≠ paramsReplacement "/users/[id]" (some [("id", "user_[0-9]+")]) :=
  ⟨by decide, by decide, by decide⟩

/-- C3 amended: slug rewriting leaves a path without bracket markers
unchanged (hence is idempotent on router-native paths), and is the identity
when the constraint map is `undefined`; full idempotence fails when a
rewrite introduces new bracket markers (see the counterexample). -/
theorem slugRewriteIdempotence_c3_amended (p : String)
    (c : Option (List (String × String))) (hnb : '[' ∉ p.data) :
    paramsReplacement p c = p ∧
    paramsReplacement (paramsReplacement p c) c = paramsReplacement p c ∧
    ∀ q, paramsReplacement q none = q := by
  have h1 : paramsReplacement p c = p := by
    cases c with
    | none => rfl
    | some pr =>
      unfold paramsReplacement slugMatches
      rw [slugMatchesAux_nil_of_no_bracket _ _ hnb]
      rfl
  exact ⟨h1, by rw [h1, h1], fun q => rfl⟩

theorem slugRewriteIdempotence_c3_amended_witness :
    paramsReplacement "/users/abc" (some [("id", "x")]) = "/users/abc" ∧
    paramsReplacement (paramsReplacement "/users/abc" (some [("id", "x")]))
        (some [("id", "x")]) = paramsReplacement "/users/abc" (some [("id", "x")]) ∧
    ∀ q, paramsReplacement q none = q :=
  slugRewriteIdempotence_c3_amended "/users/abc" (some [("id", "x")]) (by decide)

/-- C5 counterexample: the claimed step order (index collapsing before the
root-prefix strip and before app-mount prefixing) disagrees with the source
order on a concrete input: an `isIndex: true` file `a.js` at the scan root
with `appMount = "/api"` yields `"/pi/a"` (the source strips the first
occurrence of `"/a"` from the mounted path `"/api/a"`), while the claimed
order yields `"/api"`. -/
theorem createRouteUrlOrder_c5_counterexample :
    createRouteUrl "/routes" cfgApi
        { defaultRouterOpts with isIndex := some true } "/routes/a.js" = "/pi/a" ∧
    createRouteUrlClaimedOrder "/routes" cfgApi
        { defaultRouterOpts with isIndex := some true } "/routes/a.js" = "/api" ∧
    createRouteUrl "/routes" cfgApi
        { defaultRouterOpts with isIndex := some true } "/routes/a.js"
      ≠ createRouteUrlClaimedOrder "/routes" cfgApi
        { defaultRouterOpts with isIndex := some true } "/routes/a.js" :=
  ⟨by decide, by decide, by decide⟩

/-- C5 amended: the path normalizer applies its steps in the order (1) strip
the file extension, (2) strip the resolved root-directory prefix,
(3) normalize separators, (4) prepend the app mount, (5) index-route
handling (comparing the basename of the already mounted path against
extension-stripped `indexNames` entries when `isIndex` is unset),
(6) strip one trailing slash, (7) rewrite parameter slugs, (8) ensure a
single leading slash — index collapsing happens after the root prefix is
stripped and after the app mount is prepended. -/
theorem createRouteUrlOrder_c5_amended (cd : String) (opts : RegOptions)
    (ro : RouterOpts) (p : String) :
    createRouteUrl cd opts ro p =
      (let r1 := removeFileExtension p
       let r2 := if jsStartsWith r1 cd then jsReplaceFirst r1 cd "" else r1
       let r3 := backslashToSlash r2
       let r4 := if appMountTruthy opts.appMount then
           ensureLeadingToken r3 (ensureLeadingToken (opts.appMount.getD "") "/")
         else r3
       let r5 := indexStep opts ro r4
       let r6 := if jsEndsWith r5 "/" then stripOneTrailingSlash r5 else r5
       ensureLeadingToken (paramsReplacement r6 ro.paramsRegex) "/") := rfl

/-- C9: whenever the normalization pipeline collapses a file's path to the
empty string, the final `ensureLeadingToken(routePath, "/")` of
`createRouteUrl` produces exactly `"/"`, never the empty string. -/
theorem emptyPathNormalization_c9 (cd : String) (opts : RegOptions)
    (ro : RouterOpts) (p : String) (h : createRouteUrlPre cd opts ro p = "") :
    createRouteUrl cd opts ro p = "/" := by
  unfold createRouteUrl
  rw [h]
  decide

theorem emptyPathNormalization_c9_witness :
    createRouteUrlPre "/routes" defaultRegOptions defaultRouterOpts
        "/routes/index.js" = "" ∧
    createRouteUrl "/routes" defaultRegOptions defaultRouterOpts
        "/routes/index.js" = "/" :=
  ⟨by decide, emptyPathNormalization_c9 "/routes" defaultRegOptions
    defaultRouterOpts "/routes/index.js" (by decide)⟩

theorem useRouteSchemaModel_absolute_path (o : RegOptions) (e cd : String)
    (s : RouteSchemaL) :
    (useRouteSchemaModel o e cd s).absolute_path = s.absolute_path := by
  unfold useRouteSchemaModel
  split
  · rfl
  split <;> rfl

theorem useRouteSchemaModel_base_path (o : RegOptions) (e cd : String)
    (s : RouteSchemaL) :
    (useRouteSchemaModel o e cd s).base_path = s.base_path := by
  unfold useRouteSchemaModel
  split
  · rfl
  split <;> rfl

theorem useRouteSchemaModel_layers (o : RegOptions) (e cd : String)
    (s : RouteSchemaL) :
    (useRouteSchemaModel o e cd s).layers = s.layers := by
  unfold useRouteSchemaModel
  split
  · rfl
  split <;> rfl

theorem useRouteSchemaModel_error (o : RegOptions) (e cd : String)
    (s : RouteSchemaL) :
    (useRouteSchemaModel o e cd s).error = s.error := by
  unfold useRouteSchemaModel
  split
  · rfl
  split <;> rfl

theorem useRouteSchemaModel_route_options (o : RegOptions) (e cd : String)
    (s : RouteSchemaL) :
    (useRouteSchemaModel o e cd s).route_options = s.route_options := by
  unfold useRouteSchemaModel
  split
  · rfl
  split <;> rfl

theorem createRouteSchema_absolute_path (cd : String) (opts : RegOptions)
    (rh : Option HandlerL) (node : TreeNodeL) :
    (createRouteSchema cd opts rh node).absolute_path = node.absolute_path := by
  cases rh with
  | none => rfl
  | some hh =>
    simp only [createRouteSchema]
    split <;> rfl

theorem createRouteSchema_handler_fields (cd : String) (opts : RegOptions)
    (hh : HandlerL) (node : TreeNodeL) :
    (createRouteSchema cd opts (some hh) node).status = none ∧
    (createRouteSchema cd opts (some hh) node).error = none ∧
    (createRouteSchema cd opts (some hh) node).message = none ∧
    ((createRouteSchema cd opts (some hh) node).layers = [] ↔
      (createRouteSchema cd opts (some hh) node).base_path = none) := by
  simp only [createRouteSchema]
  cases hst : hh.stack.isEmpty with
  | true =>
    have hnil : hh.stack = [] := List.isEmpty_iff.mp hst
    simp [hnil]
  | false =>
    have hne : hh.stack ≠ [] := by
      intro hnil
      rw [hnil] at hst
      exact absurd hst (by simp)
    simp [hne]

/-- C10: a usable handler with an empty layer stack yields the bare schema
(`base_path = null`, `layers = []`, placeholder `{}` route options), which is
still run through the skip and environment checks; when the environment gate
allows it, the schema ends with status `registered` (binding to the router
being the external `assignMiddleware` side effect), not `skipped` or
`error`. -/
theorem emptyStackRegistered_c10 (cd : String) (opts : RegOptions)
    (env : String) (node : TreeNodeL) (h : HandlerL) (hstack : h.stack = []) :
    ∃ s, registerRouteModel cd opts env node (.handler h) = .ok s ∧
      s.base_path = none ∧ s.layers = [] ∧
      s.route_options = emptyRouteOptionsObj ∧
      (environmentBasedRegistration opts env cd (some emptyRouteOptionsObj)
          node.absolute_path = true → s.status = some .registered) ∧
      (environmentBasedRegistration opts env cd (some emptyRouteOptionsObj)
          node.absolute_path = false → s.status = some .skipped) := by
  have hcs : createRouteSchema cd opts (some h) node =
      { absolute_path := node.absolute_path, base_path := none, layers := [],
        route_options := emptyRouteOptionsObj, status := none, error := none,
        message := none } := by
    unfold createRouteSchema
    simp [hstack]
  refine ⟨registerRouteOk cd opts env node (.handler h), rfl, ?_, ?_, ?_, ?_, ?_⟩
  · rw [show registerRouteOk cd opts env node (.handler h) =
      useRouteSchemaModel opts env cd (createRouteSchema cd opts (some h) node)
      from rfl, useRouteSchemaModel_base_path, hcs]
  · rw [show registerRouteOk cd opts env node (.handler h) =
      useRouteSchemaModel opts env cd (createRouteSchema cd opts (some h) node)
      from rfl, useRouteSchemaModel_layers, hcs]
  · rw [show registerRouteOk cd opts env node (.handler h) =
      useRouteSchemaModel opts env cd (createRouteSchema cd opts (some h) node)
      from rfl, useRouteSchemaModel_route_options, hcs]
  · intro hg
    show (useRouteSchemaModel opts env cd
      (createRouteSchema cd opts (some h) node)).status = some .registered
    rw [hcs]
    unfold useRouteSchemaModel
    simp only [emptyRouteOptionsObj] at hg ⊢
    simp [hg]
  · intro hg
    show (useRouteSchemaModel opts env cd
      (createRouteSchema cd opts (some h) node)).status = some .skipped
    rw [hcs]
    unfold useRouteSchemaModel
    simp only [emptyRouteOptionsObj] at hg ⊢
    simp [hg]

theorem emptyStackRegistered_c10_witness :
    ∃ s, registerRouteModel "/routes" defaultRegOptions "development"
        ⟨"/routes/plain.js"⟩ (.handler ⟨[], defaultRouterOpts⟩) = .ok s ∧
      s.base_path = none ∧ s.layers = [] ∧
      s.route_options = emptyRouteOptionsObj ∧
      (environmentBasedRegistration defaultRegOptions "development" "/routes"
          (some emptyRouteOptionsObj) (TreeNodeL.mk "/routes/plain.js").absolute_path
          = true → s.status = some .registered) ∧
      (environmentBasedRegistration defaultRegOptions "development" "/routes"
          (some emptyRouteOptionsObj) (TreeNodeL.mk "/routes/plain.js").absolute_path
          = false → s.status = some .skipped) :=
  emptyStackRegistered_c10 "/routes" defaultRegOptions "development"
    ⟨"/routes/plain.js"⟩ ⟨[], defaultRouterOpts⟩ rfl

/-- C4 counterexample: a file whose loader returns `null` (a module without a
usable default function export, non-strict mode) produces a schema with
status `skipped` whose `message` field is not set — the explanation is
placed in `error` instead, contradicting the claimed
`Skipped implies message` invariant. -/
theorem schemaInvariants_c4_counterexample :
    ∃ s, registerRouteModel "/routes" defaultRegOptions "development"
        ⟨"/routes/broken.js"⟩ .nullHandler = .ok s ∧
      s.status = some .skipped ∧ s.message = none ∧
      s.error = some "Most likely forgot to export a default function." :=
  ⟨registerRouteOk "/routes" defaultRegOptions "development"
      ⟨"/routes/broken.js"⟩ .nullHandler, rfl, rfl, rfl, rfl⟩

/-- C4 amended: every schema record the builder emits satisfies: status
`error` implies the `error` field is set; status `skipped` implies the
`message` field or (for the loader's null-handler case) the `error` field is
set; and `layers` is empty exactly when `base_path` is null. -/
theorem schemaInvariants_c4_amended (cd : String) (opts : RegOptions)
    (env : String) (node : TreeNodeL) (load : LoadResult) (s : RouteSchemaL)
    (h : registerRouteModel cd opts env node load = .ok s) :
    (s.status = some .error → s.error.isSome) ∧
    (s.status = some .skipped → (s.message.isSome ∨ s.error.isSome)) ∧
    (s.layers = [] ↔ s.base_path = none) := by
  cases load with
  | failure msg =>
    cases hstrict : opts.strictMode with
    | true =>
      unfold registerRouteModel at h
      rw [hstrict] at h
      simp at h
    | false =>
      unfold registerRouteModel at h
      rw [hstrict] at h
      simp only [Bool.false_eq_true, if_false, Except.ok.injEq] at h
      subst h
      refine ⟨fun _ => rfl, fun _ => Or.inr rfl, ?_⟩
      simp [registerRouteOk, createRouteSchema]
  | nullHandler =>
    unfold registerRouteModel at h
    simp only [Except.ok.injEq] at h
    subst h
    refine ⟨?_, fun _ => Or.inr rfl, ?_⟩
    · intro hst
      exact absurd hst (by simp [registerRouteOk, createRouteSchema])
    · simp [registerRouteOk, createRouteSchema]
  | handler hh =>
    unfold registerRouteModel at h
    simp only [Except.ok.injEq] at h
    subst h
    have hfields := createRouteSchema_handler_fields cd opts hh node
    simp only [registerRouteOk]
    set t := createRouteSchema cd opts (some hh) node with ht
    unfold useRouteSchemaModel
    split
    · refine ⟨by simp, fun _ => Or.inl rfl, ?_⟩
      simpa using hfields.2.2.2
    split
    · refine ⟨by simp, by simp, ?_⟩
      simpa using hfields.2.2.2
    · refine ⟨by simp, fun _ => Or.inl rfl, ?_⟩
      simpa using hfields.2.2.2

theorem schemaInvariants_c4_amended_witness :
    ((registerRouteOk "/routes" defaultRegOptions "development"
        ⟨"/routes/a.js"⟩ (.failure "boom")).status = some .error →
      (registerRouteOk "/routes" defaultRegOptions "development"
        ⟨"/routes/a.js"⟩ (.failure "boom")).error.isSome) ∧
    ((registerRouteOk "/routes" defaultRegOptions "development"
        ⟨"/routes/a.js"⟩ (.failure "boom")).status = some .skipped →
      ((registerRouteOk "/routes" defaultRegOptions "development"
        ⟨"/routes/a.js"⟩ (.failure "boom")).message.isSome ∨
       (registerRouteOk "/routes" defaultRegOptions "development"
        ⟨"/routes/a.js"⟩ (.failure "boom")).error.isSome)) ∧
    ((registerRouteOk "/routes" defaultRegOptions "development"
        ⟨"/routes/a.js"⟩ (.failure "boom")).layers = [] ↔
      (registerRouteOk "/routes" defaultRegOptions "development"
        ⟨"/routes/a.js"⟩ (.failure "boom")).base_path = none) :=
  schemaInvariants_c4_amended "/routes" defaultRegOptions "development"
    ⟨"/routes/a.js"⟩ (.failure "boom") _ rfl

theorem registerRouteOk_absolute_path (cd : String) (opts : RegOptions)
    (env : String) (node : TreeNodeL) (load : LoadResult) :
    (registerRouteOk cd opts env node load).absolute_path = node.absolute_path := by
  cases load with
  | failure msg =>
    show (createRouteSchema cd opts none node).absolute_path = node.absolute_path
    exact createRouteSchema_absolute_path cd opts none node
  | nullHandler =>
    show (createRouteSchema cd opts none node).absolute_path = node.absolute_path
    exact createRouteSchema_absolute_path cd opts none node
  | handler hh =>
    simp only [registerRouteOk]
    rw [useRouteSchemaModel_absolute_path]
    exact createRouteSchema_absolute_path cd opts (some hh) node

theorem registerRouteModel_nonstrict (cd : String) (opts : RegOptions)
    (env : String) (node : TreeNodeL) (load : LoadResult)
    (h : opts.strictMode = false) :
    registerRouteModel cd opts env node load
      = .ok (registerRouteOk cd opts env node load) := by
  cases load with
  | failure msg => simp [registerRouteModel, h]
  | nullHandler => rfl
  | handler hh => rfl

theorem runModel_nonstrict (cd : String) (opts : RegOptions) (env : String)
    (nodes : List TreeNodeL) (loader : TreeNodeL → LoadResult)
    (h : opts.strictMode = false) :
    runModel cd opts env nodes loader =
      .ok (nodes.map (fun n => registerRouteOk cd opts env n (loader n))) := by
  unfold runModel
  induction nodes with
  | nil => rfl
  | cons n ns ih =>
    rw [List.mapM_cons, registerRouteModel_nonstrict cd opts env n (loader n) h, ih]
    rfl

/-- C8: with strict mode off, a run produces exactly one schema record per
discovered file, in traversal order, with matching source paths; a loader
failure for one file only marks that file's record with status `error` and
its message, and the record of every other file is unchanged whenever its
own loader outcome is unchanged. -/
theorem registryCompleteness_c8 (cd env : String) (opts : RegOptions)
    (nodes : List TreeNodeL) (loader : TreeNodeL → LoadResult)
    (h : opts.strictMode = false) :
    ∃ registry, runModel cd opts env nodes loader = .ok registry ∧
      registry.length = nodes.length ∧
      (∀ i (hi : i < nodes.length) (hri : i < registry.length),
        (registry.get ⟨i, hri⟩).absolute_path
          = (nodes.get ⟨i, hi⟩).absolute_path) ∧
      (∀ i (hi : i < nodes.length) (hri : i < registry.length) (msg : String),
        loader (nodes.get ⟨i, hi⟩) = .failure msg →
        (registry.get ⟨i, hri⟩).status = some .error ∧
        (registry.get ⟨i, hri⟩).error = some msg) ∧
      (∀ loader₂ registry₂,
        runModel cd opts env nodes loader₂ = .ok registry₂ →
        ∀ i (hi : i < nodes.length) (hri : i < registry.length)
          (hri₂ : i < registry₂.length),
        loader₂ (nodes.get ⟨i, hi⟩) = loader (nodes.get ⟨i, hi⟩) →
        registry₂.get ⟨i, hri₂⟩ = registry.get ⟨i, hri⟩) := by
  refine ⟨_, runModel_nonstrict cd opts env nodes loader h, ?_, ?_, ?_, ?_⟩
  · exact List.length_map nodes _
  · intro i hi hri
    rw [List.get_map]
    exact registerRouteOk_absolute_path cd opts env _ _
  · intro i hi hri msg hmsg
    rw [List.get_map]
    have : loader (nodes.get ⟨i, _⟩) = .failure msg := hmsg
    rw [this]
    exact ⟨rfl, rfl⟩
  · intro loader₂ registry₂ hrun₂ i hi hri hri₂ hsame
    rw [runModel_nonstrict cd opts env nodes loader₂ h] at hrun₂
    have hreg : registry₂ = nodes.map (fun n => registerRouteOk cd opts env n
        (loader₂ n)) := by
      have := Except.ok.inj hrun₂
      exact this.symm
    subst hreg
    rw [List.get_map, List.get_map, hsame]

theorem registryCompleteness_c8_witness :
    ∃ registry, runModel "/r" defaultRegOptions "development"
        [⟨"/r/a.js"⟩, ⟨"/r/b.js"⟩]
        (fun n => if n.absolute_path == "/r/a.js" then .failure "boom"
          else .nullHandler) = .ok registry ∧
      registry.length = ([⟨"/r/a.js"⟩, ⟨"/r/b.js"⟩] : List TreeNodeL).length ∧
      (∀ i (hi : i < ([⟨"/r/a.js"⟩, ⟨"/r/b.js"⟩] : List TreeNodeL).length)
        (hri : i < registry.length),
        (registry.get ⟨i, hri⟩).absolute_path
          = (([⟨"/r/a.js"⟩, ⟨"/r/b.js"⟩] : List TreeNodeL).get ⟨i, hi⟩).absolute_path) ∧
      (∀ i (hi : i < ([⟨"/r/a.js"⟩, ⟨"/r/b.js"⟩] : List TreeNodeL).length)
        (hri : i < registry.length) (msg : String),
        (fun (n : TreeNodeL) => if n.absolute_path == "/r/a.js" then
            LoadResult.failure "boom" else .nullHandler)
          (([⟨"/r/a.js"⟩, ⟨"/r/b.js"⟩] : List TreeNodeL).get ⟨i, hi⟩)
          = .failure msg →
        (registry.get ⟨i, hri⟩).status = some .error ∧
        (registry.get ⟨i, hri⟩).error = some msg) ∧
      (∀ loader₂ registry₂,
        runModel "/r" defaultRegOptions "development"
          [⟨"/r/a.js"⟩, ⟨"/r/b.js"⟩] loader₂ = .ok registry₂ →
        ∀ i (hi : i < ([⟨"/r/a.js"⟩, ⟨"/r/b.js"⟩] : List TreeNodeL).length)
          (hri : i < registry.length) (hri₂ : i < registry₂.length),
        loader₂ (([⟨"/r/a.js"⟩, ⟨"/r/b.js"⟩] : List TreeNodeL).get ⟨i, hi⟩)
          = (fun (n : TreeNodeL) => if n.absolute_path == "/r/a.js" then
              LoadResult.failure "boom" else .nullHandler)
            (([⟨"/r/a.js"⟩, ⟨"/r/b.js"⟩] : List TreeNodeL).get ⟨i, hi⟩) →
        registry₂.get ⟨i, hri₂⟩ = registry.get ⟨i, hri⟩) :=
  registryCompleteness_c8 "/r" "development" defaultRegOptions
    [⟨"/r/a.js"⟩, ⟨"/r/b.js"⟩]
    (fun n => if n.absolute_path == "/r/a.js" then .failure "boom"
      else .nullHandler) rfl

theorem prefix_of_ensureLeadingToken (v t : String) :
    t.data <+: (ensureLeadingToken v t).data := by
  unfold ensureLeadingToken
  split
  · exact List.isPrefixOf_iff_prefix.mp ‹_›
  · exact List.prefix_append t.data v.data

theorem dropWhile_head_false {α : Type} (p : α → Bool) (l : List α) (c : α)
    (cs : List α) (h : l.dropWhile p = c :: cs) : p c = false := by
  induction l with
  | nil => simp at h
  | cons a as ih =>
    rw [List.dropWhile_cons] at h
    by_cases hp : p a = true
    · rw [if_pos hp] at h
      exact ih h
    · rw [if_neg hp] at h
      cases h
      simpa using hp

theorem four_prefix_of_sep (d rest u : List Char)
    (h : d ++ '/' :: 'i' :: rest = '/' :: 'a' :: 'p' :: 'i' :: u) :
    d = [] ∨ d = ['/'] ∨ ['/', 'a', 'p', 'i'] <+: d := by
  match d with
  | [] => exact Or.inl rfl
  | [x] => simp [List.cons.injEq] at h
  | [x, y] => simp [List.cons.injEq] at h
  | [x, y, z] => simp [List.cons.injEq] at h
  | x :: y :: z :: w :: rest2 =>
    simp only [List.cons_append, List.cons.injEq] at h
    obtain ⟨hx, hy, hz, hw, _⟩ := h
    subst hx; subst hy; subst hz; subst hw
    exact Or.inr (Or.inr ⟨rest2, rfl⟩)

theorem posixDirnameL_keeps_api (l u : List Char)
    (hu : l = ['/', 'a', 'p', 'i'] ++ u)
    (hbn : posixBasenameL l = ['i', 'n', 'd', 'e', 'x']) :
    ['/', 'a', 'p', 'i'] <+: posixDirnameL l := by
  have htake : (l.reverse.dropWhile (fun c => c == '/')).takeWhile
      (fun c => !(c == '/')) = ['x', 'e', 'd', 'n', 'i'] := by
    unfold posixBasenameL at hbn
    have h1 := congrArg List.reverse hbn
    rw [List.reverse_reverse] at h1
    exact h1.trans (by rfl)
  have hsplit2 : ['x', 'e', 'd', 'n', 'i'] ++
      ((l.reverse.dropWhile (fun c => c == '/')).dropWhile (fun c => !(c == '/')))
      = l.reverse.dropWhile (fun c => c == '/') := by
    conv_rhs => rw [← List.takeWhile_append_dropWhile (fun c => !(c == '/'))
      (l.reverse.dropWhile (fun c => c == '/'))]
    rw [htake]
  have hsplit1 : (l.reverse.takeWhile (fun c => c == '/')) ++
      (l.reverse.dropWhile (fun c => c == '/')) = l.reverse :=
    List.takeWhile_append_dropWhile _ _
  have hl2 : l = ((l.reverse.dropWhile (fun c => c == '/')).dropWhile
        (fun c => !(c == '/'))).reverse ++
      ('i' :: 'n' :: 'd' :: 'e' :: 'x' ::
        (l.reverse.takeWhile (fun c => c == '/')).reverse) := by
    conv_lhs => rw [← List.reverse_reverse l]
    conv_lhs => rw [← hsplit1, ← hsplit2]
    simp [List.reverse_append]
  have hlemp : l.isEmpty = false := by rw [hu]; rfl
  have hroot : (l.head? == some '/') = true := by rw [hu]; rfl
  unfold posixDirnameL
  simp only [hlemp, hroot, Bool.false_eq_true, if_false, if_true, Bool.and_true]
  split
  · rename_i heq
    exfalso
    rw [heq] at hl2
    rw [hu] at hl2
    simp [List.cons.injEq] at hl2
  · rename_i c r3 heq
    have hc : c = '/' := by
      have := dropWhile_head_false _ _ _ _ heq
      simpa using this
    rw [heq] at hl2
    subst hc
    have hl3 : l = r3.reverse ++ '/' :: 'i' ::
        ('n' :: 'd' :: 'e' :: 'x' ::
          (l.reverse.takeWhile (fun c => c == '/')).reverse) := by
      conv_lhs => rw [hl2]
      simp
    rw [hu] at hl3
    rcases four_prefix_of_sep r3.reverse _ u hl3.symm with hd | hd | hd
    · exfalso
      rw [hd] at hl3
      simp [List.cons.injEq] at hl3
    · exfalso
      rw [hd] at hl3
      simp [List.cons.injEq] at hl3
    · have hne : r3 ≠ [] := by
        rintro rfl
        have := hd.length_le
        simp at this
      have hne2 : (r3 == ['/']) = false := by
        rw [beq_eq_false_iff_ne]
        rintro rfl
        have := hd.length_le
        simp at this
      rw [if_neg (by simp [hne]), if_neg (by simp [hne2])]
      exact hd

theorem slugMatchesAux_head (fuel : Nat) (cs : List Char)
    (m : List Char × List Char) (hm : m ∈ slugMatchesAux fuel cs) :
    m.1.head? = some '[' := by
  induction fuel generalizing cs with
  | zero => simp [slugMatchesAux] at hm
  | succ n ih =>
    cases cs with
    | nil => simp [slugMatchesAux] at hm
    | cons c cs' =>
      rw [slugMatchesAux] at hm
      by_cases hc : (c == '[') = true
      · rw [if_pos hc] at hm
        simp only [] at hm
        split at hm
        · rcases List.mem_cons.mp hm with hm1 | hm2
          · rw [hm1]
            rfl
          · exact ih _ hm2

        · exact ih _ hm
      · rw [if_neg hc] at hm
        exact ih _ hm

theorem replaceFirstL_keeps_lead (pre pat rep : List Char)
    (hpat : pat.head? = some '[') (hnb : '[' ∉ pre) :
    ∀ s, pre <+: s → pre <+: replaceFirstL pat rep s := by
  induction pre with
  | nil => intro s _; exact List.nil_prefix
  | cons a pre' ih =>
    intro s hpre
    obtain ⟨v, hv⟩ := hpre
    rw [← hv]
    show a :: pre' <+: replaceFirstL pat rep (a :: (pre' ++ v))
    obtain ⟨pt, hpt⟩ : ∃ pt, pat = '[' :: pt := by
      cases pat with
      | nil => simp at hpat
      | cons p0 pt =>
        refine ⟨pt, ?_⟩
        simp only [List.head?_cons, Option.some.injEq] at hpat
        rw [hpat]
    have hane : ('[' : Char) ≠ a := by
      intro hcontr
      exact hnb (by rw [hcontr]; exact List.mem_cons_self _ _)
    have hbeq : (('[' : Char) == a) = false := beq_eq_false_iff_ne.mpr hane
    have hcond : pat.isPrefixOf (a :: (pre' ++ v)) = false := by
      rw [hpt]
      simp [List.isPrefixOf, hbeq]
    rw [replaceFirstL, if_neg (by simp [hcond])]
    refine (List.cons_prefix_cons).mpr ⟨rfl, ?_⟩
    exact ih (fun hmem => hnb (List.mem_cons_of_mem _ hmem)) (pre' ++ v)
      (List.prefix_append _ _)

theorem foldl_slug_keeps_lead (pre : List Char) (hnb : '[' ∉ pre)
    (pr : List (String × String)) :
    ∀ (ms : List (List Char × List Char)) (acc : String),
      (∀ m ∈ ms, m.1.head? = some '[') → pre <+: acc.data →
      pre <+: (ms.foldl
        (fun modifiedUrl m => jsReplaceFirst modifiedUrl ⟨m.1⟩ (slugReplacer pr m))
        acc).data := by
  intro ms
  induction ms with
  | nil => intro acc _ h; exact h
  | cons m ms' ih =>
    intro acc hall hacc
    rw [List.foldl_cons]
    refine ih _ (fun m' hm' => hall m' (List.mem_cons_of_mem _ hm')) ?_
    exact replaceFirstL_keeps_lead pre m.1 (slugReplacer pr m).data
      (hall m (List.mem_cons_self _ _)) hnb acc.data hacc

theorem paramsReplacement_keeps_lead (pre url : String)
    (c : Option (List (String × String)))
    (hpre : pre.data <+: url.data) (hnb : '[' ∉ pre.data) :
    pre.data <+: (paramsReplacement url c).data := by
  cases c with
  | none => exact hpre
  | some pr =>
    unfold paramsReplacement
    exact foldl_slug_keeps_lead pre.data hnb pr (slugMatches url.data) url
      (fun m hm => slugMatchesAux_head _ _ m hm) hpre

theorem trailingSlash_keeps_lead (s : String)
    (hpre : ("/api".data) <+: s.data) :
    ("/api".data) <+: (if jsEndsWith s "/" then stripOneTrailingSlash s else s).data := by
  cases hend : jsEndsWith s "/" with
  | false =>
    simp only [hend, Bool.false_eq_true, if_false]
    exact hpre
  | true =>
    rw [if_pos rfl]
    unfold stripOneTrailingSlash
    rw [if_pos hend]
    obtain ⟨v, hv⟩ := hpre
    cases v with
    | nil =>
      exfalso
      have hfalse : jsEndsWith s "/" = false := by
        unfold jsEndsWith
        rw [show s.data = "/api".data ++ [] from hv.symm]
        decide
      rw [hfalse] at hend
      exact Bool.false_ne_true hend
    | cons c cs =>
      show ("/api".data) <+: s.data.dropLast
      rw [show s.data = "/api".data ++ c :: cs from hv.symm,
        List.dropLast_append_of_ne_nil "/api".data (by simp : (c :: cs) ≠ [])]
      exact List.prefix_append _ _

theorem createRouteUrl_keeps_api (cd p : String) (ro : RouterOpts)
    (hidx : ro.isIndex ≠ some true) :
    ("/api".data) <+: (createRouteUrl cd cfgApi ro p).data := by
  have hpipe : createRouteUrl cd cfgApi ro p =
      ensureLeadingToken (paramsReplacement
        (if jsEndsWith (indexStep cfgApi ro
              (ensureLeadingToken
                (backslashToSlash
                  (if jsStartsWith (removeFileExtension p) cd
                   then jsReplaceFirst (removeFileExtension p) cd ""
                   else removeFileExtension p)) "/api")) "/"
         then stripOneTrailingSlash (indexStep cfgApi ro
              (ensureLeadingToken
                (backslashToSlash
                  (if jsStartsWith (removeFileExtension p) cd
                   then jsReplaceFirst (removeFileExtension p) cd ""
                   else removeFileExtension p)) "/api"))
         else indexStep cfgApi ro
              (ensureLeadingToken
                (backslashToSlash
                  (if jsStartsWith (removeFileExtension p) cd
                   then jsReplaceFirst (removeFileExtension p) cd ""
                   else removeFileExtension p)) "/api"))
        ro.paramsRegex) "/" := rfl
  rw [hpipe]
  set r4 := ensureLeadingToken
    (backslashToSlash
      (if jsStartsWith (removeFileExtension p) cd
       then jsReplaceFirst (removeFileExtension p) cd ""
       else removeFileExtension p)) "/api" with hr4
  have h4 : ("/api".data) <+: r4.data := prefix_of_ensureLeadingToken _ _
  have h5 : ("/api".data) <+: (indexStep cfgApi ro r4).data := by
    unfold indexStep
    cases hidxv : ro.isIndex with
    | none =>
      have hnames : cfgApi.indexNames = ["index.js"] := rfl
      rw [hnames]
      show ("/api".data) <+:
        (if posixBasename r4 == removeFileExtension "index.js"
         then posixDirname r4 else indexCollapseLoop [] r4).data
      rw [show removeFileExtension "index.js" = "index" from rfl]
      cases hbq : posixBasename r4 == "index" with
      | false =>
        simp only [Bool.false_eq_true, if_false]
        exact h4
      | true =>
        rw [if_pos rfl]
        obtain ⟨u, hu⟩ := h4
        have hbn : posixBasenameL r4.data = ['i', 'n', 'd', 'e', 'x'] := by
          have h0 := congrArg String.data (eq_of_beq hbq)
          exact h0.trans (by rfl)
        exact posixDirnameL_keeps_api r4.data u hu.symm hbn
    | some b =>
      cases b with
      | true => exact absurd hidxv hidx
      | false => exact h4
  have h6 : ("/api".data) <+:
      (if jsEndsWith (indexStep cfgApi ro r4) "/"
       then stripOneTrailingSlash (indexStep cfgApi ro r4)
       else indexStep cfgApi ro r4).data :=
    trailingSlash_keeps_lead _ h5
  have h7 : ("/api".data) <+:
      (paramsReplacement
        (if jsEndsWith (indexStep cfgApi ro r4) "/"
         then stripOneTrailingSlash (indexStep cfgApi ro r4)
         else indexStep cfgApi ro r4) ro.paramsRegex).data :=
    paramsReplacement_keeps_lead "/api" _ ro.paramsRegex h6 (by decide)
  have hsw : jsStartsWith (paramsReplacement
      (if jsEndsWith (indexStep cfgApi ro r4) "/"
       then stripOneTrailingSlash (indexStep cfgApi ro r4)
       else indexStep cfgApi ro r4) ro.paramsRegex) "/" = true := by
    unfold jsStartsWith
    exact List.isPrefixOf_iff_prefix.mpr
      (List.IsPrefix.trans ⟨['a', 'p', 'i'], rfl⟩ h7)
  unfold ensureLeadingToken
  rw [if_pos hsw]
  exact h7

theorem createRouteSchema_base_path_cases (cd : String) (opts : RegOptions)
    (hh : HandlerL) (node : TreeNodeL) :
    (createRouteSchema cd opts (some hh) node).base_path = none ∨
    (createRouteSchema cd opts (some hh) node).base_path
      = some (createRouteUrl cd opts hh.routeOptions node.absolute_path) := by
  simp only [createRouteSchema]
  split
  · exact Or.inl rfl
  · exact Or.inr rfl

/-- C6 counterexample: with `appMount = "/api"` and defaults otherwise, the
file `a.js` at the scan root with `isIndex: true` is registered with base
path `"/pi/a"`: the `routePath.replace(base, "")` of the `isIndex` branch
removes the first occurrence of `"/a"`, which sits inside the mount
`"/api"`.  The registered base path does not start with `"/api"`. -/
theorem appMountPrefix_c6_counterexample :
    ∃ s, registerRouteModel "/routes" cfgApi "development" ⟨"/routes/a.js"⟩
        (.handler ⟨[⟨"/", ["get"], 1⟩],
          { defaultRouterOpts with isIndex := some true }⟩) = .ok s ∧
      s.status = some .registered ∧ s.base_path = some "/pi/a" ∧
      jsStartsWith "/pi/a" "/api" = false :=
  ⟨registerRouteOk "/routes" cfgApi "development" ⟨"/routes/a.js"⟩
      (.handler ⟨[⟨"/", ["get"], 1⟩],
        { defaultRouterOpts with isIndex := some true }⟩),
    rfl, by decide, by decide, by decide⟩

/-- C6 amended: with `appMount = "/api"` and otherwise-default global
configuration, every schema that carries a base path and whose resolved
`isIndex` option is not explicitly `true` has a base path starting with
`"/api"` — in particular every such `registered` schema.  (For
`isIndex: true` files the first-occurrence basename replacement can corrupt
the mount; see the counterexample.) -/
theorem appMountPrefix_c6_amended (cd env : String) (node : TreeNodeL)
    (h : HandlerL) (s : RouteSchemaL) (u : String)
    (hidx : h.routeOptions.isIndex ≠ some true)
    (hok : registerRouteModel cd cfgApi env node (.handler h) = .ok s)
    (hreg : s.status = some .registered)
    (hbp : s.base_path = some u) :
    jsStartsWith u "/api" = true := by
  have hs : s = useRouteSchemaModel cfgApi env cd
      (createRouteSchema cd cfgApi (some h) node) := (Except.ok.inj hok).symm
  subst hs
  rw [useRouteSchemaModel_base_path] at hbp
  rcases createRouteSchema_base_path_cases cd cfgApi h node with hbc | hbc
  · rw [hbc] at hbp
    exact absurd hbp (by simp)
  · rw [hbc] at hbp
    have hueq : u = createRouteUrl cd cfgApi h.routeOptions node.absolute_path :=
      (Option.some.inj hbp).symm
    subst hueq
    unfold jsStartsWith
    exact List.isPrefixOf_iff_prefix.mpr
      (createRouteUrl_keeps_api cd node.absolute_path h.routeOptions hidx)

theorem appMountPrefix_c6_amended_witness :
    jsStartsWith (createRouteUrl "/routes" cfgApi defaultRouterOpts
      "/routes/users/list.js") "/api" = true :=
  appMountPrefix_c6_amended "/routes" "development" ⟨"/routes/users/list.js"⟩
    ⟨[⟨"/", ["get"], 1⟩], defaultRouterOpts⟩ _ _ (by decide) rfl (by decide)
    (by decide)

theorem jsLookupL_map_set_self (fields : List (String × JSValue)) (k : String)
    (v : JSValue) (h : (jsLookupL fields k).isSome = true) :
    jsLookupL (fields.map (fun kv => if kv.1 == k then (kv.1, v) else kv)) k
      = some v := by
  induction fields with
  | nil => simp [jsLookupL] at h
  | cons kv t ih =>
    obtain ⟨k0, v0⟩ := kv
    by_cases hk : k0 = k
    · subst hk
      simp [jsLookupL, List.lookup_cons]
    · have hb : (k0 == k) = false := beq_eq_false_iff_ne.mpr hk
      have hb2 : (k == k0) = false := beq_eq_false_iff_ne.mpr (fun he => hk he.symm)
      unfold jsLookupL at h ⊢
      rw [List.lookup_cons, hb2] at h
      simp only [List.map_cons, hb, Bool.false_eq_true, if_false]
      rw [List.lookup_cons, hb2]
      exact ih h

theorem jsLookupL_map_set_ne (fields : List (String × JSValue)) (k k' : String)
    (v : JSValue) (h : k' ≠ k) :
    jsLookupL (fields.map (fun kv => if kv.1 == k then (kv.1, v) else kv)) k'
      = jsLookupL fields k' := by
  induction fields with
  | nil => rfl
  | cons kv t ih =>
    obtain ⟨k0, v0⟩ := kv
    unfold jsLookupL at ih ⊢
    by_cases hk : k0 = k
    · subst hk
      have hb : (k' == k0) = false := beq_eq_false_iff_ne.mpr h
      simp only [List.map_cons]
      rw [show (if (k0 == k0) = true then (k0, v) else (k0, v0)) = (k0, v) by simp]
      rw [List.lookup_cons, List.lookup_cons, hb]
      simpa using ih
    · have hb : (k0 == k) = false := beq_eq_false_iff_ne.mpr hk
      simp only [List.map_cons, hb, Bool.false_eq_true, if_false]
      rw [List.lookup_cons, List.lookup_cons]
      cases hbeq : (k' == k0) with
      | true => rfl
      | false => exact ih

theorem jsLookupL_append_single_self (fields : List (String × JSValue))
    (k : String) (v : JSValue) (h : jsLookupL fields k = none) :
    jsLookupL (fields ++ [(k, v)]) k = some v := by
  induction fields with
  | nil => simp [jsLookupL, List.lookup_cons]
  | cons kv t ih =>
    obtain ⟨k0, v0⟩ := kv
    unfold jsLookupL at h ih ⊢
    rw [List.lookup_cons] at h
    rw [List.cons_append, List.lookup_cons]
    cases hbeq : (k == k0) with
    | true => rw [hbeq] at h; simp at h
    | false =>
      rw [hbeq] at h
      exact ih h

theorem jsLookupL_append_single_ne (fields : List (String × JSValue))
    (k k' : String) (v : JSValue) (h : k' ≠ k) :
    jsLookupL (fields ++ [(k, v)]) k' = jsLookupL fields k' := by
  induction fields with
  | nil =>
    unfold jsLookupL
    rw [List.nil_append, List.lookup_cons, beq_eq_false_iff_ne.mpr h,
      List.lookup_nil]
  | cons kv t ih =>
    obtain ⟨k0, v0⟩ := kv
    unfold jsLookupL at ih ⊢
    rw [List.cons_append, List.lookup_cons, List.lookup_cons]
    cases hbeq : (k' == k0) with
    | true => rfl
    | false => exact ih

theorem jsLookupL_objSet_self (fields : List (String × JSValue)) (k : String)
    (v : JSValue) : jsLookupL (objSet fields k v) k = some v := by
  unfold objSet
  cases hs : (jsLookupL fields k).isSome with
  | true =>
    rw [if_pos rfl]
    exact jsLookupL_map_set_self fields k v hs
  | false =>
    rw [if_neg (by simp)]
    exact jsLookupL_append_single_self fields k v
      (Option.not_isSome_iff_eq_none.mp (by simp [hs]))

theorem jsLookupL_objSet_ne (fields : List (String × JSValue)) (k k' : String)
    (v : JSValue) (h : k' ≠ k) :
    jsLookupL (objSet fields k v) k' = jsLookupL fields k' := by
  unfold objSet
  split
  · exact jsLookupL_map_set_ne fields k k' v h
  · exact jsLookupL_append_single_ne fields k k' v h

theorem jsLookupL_eq_some_mem (fields : List (String × JSValue)) (k : String)
    (v : JSValue) (h : jsLookupL fields k = some v) : (k, v) ∈ fields := by
  induction fields with
  | nil => simp [jsLookupL, List.lookup_nil] at h
  | cons kv t ih =>
    obtain ⟨k0, v0⟩ := kv
    unfold jsLookupL at h
    rw [List.lookup_cons] at h
    cases hbeq : (k == k0) with
    | true =>
      rw [hbeq] at h
      simp only [Option.some.injEq] at h
      have : k = k0 := eq_of_beq hbeq
      subst this
      rw [← h]
      exact List.mem_cons_self _ _
    | false =>
      rw [hbeq] at h
      exact List.mem_cons_of_mem _ (ih h)

theorem jsLookupL_objAssign_not_mem (d fields : List (String × JSValue))
    (k : String) (h : k ∉ fields.map Prod.fst) :
    jsLookupL (objAssign d fields) k = jsLookupL d k := by
  induction fields generalizing d with
  | nil => rfl
  | cons kv t ih =>
    have hne : k ≠ kv.1 := by
      intro hcontr
      exact h (by rw [hcontr]; exact List.mem_map_of_mem _ (List.mem_cons_self _ _))
    show jsLookupL (objAssign (objSet d kv.1 kv.2) t) k = jsLookupL d k
    rw [ih (objSet d kv.1 kv.2) (fun hmem => h (by
      simp only [List.map_cons]
      exact List.mem_cons_of_mem _ hmem))]
    exact jsLookupL_objSet_ne d kv.1 k kv.2 hne

theorem jsLookupL_objAssign_mem (fields : List (String × JSValue))
    (k : String) (v : JSValue) :
    ∀ d : List (String × JSValue), (fields.map Prod.fst).Nodup →
    (k, v) ∈ fields → jsLookupL (objAssign d fields) k = some v := by
  induction fields with
  | nil => intro d _ hmem; simp at hmem
  | cons kv t ih =>
    intro d hnd hmem
    rw [List.map_cons] at hnd
    rcases List.mem_cons.mp hmem with h1 | h2
    · have hk : kv.1 = k := by rw [← h1]
      have hnotin : k ∉ t.map Prod.fst := by
        rw [← hk]
        exact (List.nodup_cons.mp hnd).1
      show jsLookupL (objAssign (objSet d kv.1 kv.2) t) k = some v
      rw [jsLookupL_objAssign_not_mem _ _ _ hnotin, hk,
        show kv.2 = v by rw [← h1]]
      exact jsLookupL_objSet_self d k v
    · show jsLookupL (objAssign (objSet d kv.1 kv.2) t) k = some v
      exact ih (objSet d kv.1 kv.2) (List.nodup_cons.mp hnd).2 h2

theorem jsGetL_clampStep_ne (fields : List (String × JSValue)) (k k' : String)
    (check : JSValue → Bool) (d : JSValue) (h : k' ≠ k) :
    jsGetL (clampStep fields k check d) k' = jsGetL fields k' := by
  unfold clampStep
  split
  · rfl
  · unfold jsGetL
    rw [jsLookupL_objSet_ne fields k k' d h]

theorem jsGetL_clampStep_self (fields : List (String × JSValue)) (k : String)
    (check : JSValue → Bool) (d : JSValue) :
    (check (jsGetL fields k) = true ∧
      jsGetL (clampStep fields k check d) k = jsGetL fields k) ∨
    (check (jsGetL fields k) = false ∧
      jsGetL (clampStep fields k check d) k = d) := by
  unfold clampStep
  cases hch : check (jsGetL fields k) with
  | true =>
    rw [if_pos rfl]
    exact Or.inl ⟨rfl, rfl⟩
  | false =>
    rw [if_neg (by simp)]
    refine Or.inr ⟨rfl, ?_⟩
    unfold jsGetL
    rw [jsLookupL_objSet_self fields k d]
    rfl

theorem jsGetL_clampChain_not_mem
    (specs : List (String × (JSValue → Bool) × JSValue))
    (fields : List (String × JSValue)) (k : String)
    (h : k ∉ specs.map Prod.fst) :
    jsGetL (specs.foldl (fun fs spec => clampStep fs spec.1 spec.2.1 spec.2.2)
      fields) k = jsGetL fields k := by
  induction specs generalizing fields with
  | nil => rfl
  | cons c cs ih =>
    have hne : k ≠ c.1 := by
      intro hcontr
      exact h (by rw [hcontr]; exact List.mem_map_of_mem _ (List.mem_cons_self _ _))
    rw [List.foldl_cons, ih _ (fun hmem => h (by
      simp only [List.map_cons]
      exact List.mem_cons_of_mem _ hmem))]
    exact jsGetL_clampStep_ne fields c.1 k c.2.1 c.2.2 hne

theorem jsGetL_clampChain_sound
    (specs : List (String × (JSValue → Bool) × JSValue))
    (spec : String × (JSValue → Bool) × JSValue)
    (fields : List (String × JSValue))
    (hnd : (specs.map Prod.fst).Nodup) (hmem : spec ∈ specs) :
    spec.2.1 (jsGetL (specs.foldl
      (fun fs c => clampStep fs c.1 c.2.1 c.2.2) fields) spec.1) = true ∨
    jsGetL (specs.foldl
      (fun fs c => clampStep fs c.1 c.2.1 c.2.2) fields) spec.1 = spec.2.2 := by
  induction specs generalizing fields with
  | nil => simp at hmem
  | cons c cs ih =>
    rw [List.map_cons] at hnd
    rcases List.mem_cons.mp hmem with h1 | h2
    · subst h1
      have hnotin : spec.1 ∉ cs.map Prod.fst := (List.nodup_cons.mp hnd).1
      rw [List.foldl_cons,
        jsGetL_clampChain_not_mem cs _ spec.1 hnotin]
      rcases jsGetL_clampStep_self fields spec.1 spec.2.1 spec.2.2 with
        ⟨hch, heq⟩ | ⟨hch, heq⟩
      · rw [heq]
        exact Or.inl hch
      · rw [heq]
        exact Or.inr rfl
    · rw [List.foldl_cons]
      exact ih _ (List.nodup_cons.mp hnd).2 h2

theorem jsLookupL_condSet_ne (fields : List (String × JSValue)) (c : Bool)
    (k k' : String) (v : JSValue) (h : k' ≠ k) :
    jsLookupL (if c then objSet fields k v else fields) k'
      = jsLookupL fields k' := by
  cases c with
  | true => exact jsLookupL_objSet_ne fields k k' v h
  | false => rfl

theorem parseRouteHandlerFields_env (o : JSValue) (ho : isObjectJS o = true) :
    jsLookupL (parseRouteHandlerFields o) "environments"
      = some (normalizeEnvironments
          (jsGetL (objAssign DEFAULT_ROUTE_OPTIONS_FIELDS (ownProps o))
            "environments")) := by
  unfold parseRouteHandlerFields
  rw [if_neg (by simp [ho])]
  rw [jsLookupL_condSet_ne _ _ _ _ _ (by decide),
    jsLookupL_objSet_ne _ _ _ _ (by decide),
    jsLookupL_objSet_self]

theorem parseRouteHandlerFields_paramsRegex (o : JSValue)
    (ho : isObjectJS o = true) :
    jsLookupL (parseRouteHandlerFields o) "paramsRegex"
      = some (normalizeParamsRegex (jsGet o "paramsRegex")) := by
  unfold parseRouteHandlerFields
  rw [if_neg (by simp [ho])]
  rw [jsLookupL_condSet_ne _ _ _ _ _ (by decide), jsLookupL_objSet_self]

theorem parseRouteHandlerFields_retain (fs : List (String × JSValue))
    (k : String) (v : JSValue) (hnd : (fs.map Prod.fst).Nodup)
    (h1 : k ≠ "environments") (h2 : k ≠ "paramsRegex") (h3 : k ≠ "metadata")
    (hmem : (k, v) ∈ fs) :
    jsLookupL (parseRouteHandlerFields (.obj fs)) k = some v := by
  unfold parseRouteHandlerFields
  rw [if_neg (by simp [isObjectJS])]
  rw [jsLookupL_condSet_ne _ _ _ _ _ h3, jsLookupL_objSet_ne _ _ _ _ h2,
    jsLookupL_objSet_ne _ _ _ _ h1]
  exact jsLookupL_objAssign_mem fs k v DEFAULT_ROUTE_OPTIONS_FIELDS hnd hmem

theorem normalizeEnvironments_shape (v : JSValue) :
    normalizeEnvironments v = .null ∨
    ∃ l, normalizeEnvironments v = .arr l ∧ l ≠ [] := by
  unfold normalizeEnvironments
  cases v with
  | str s => exact Or.inr ⟨[.str s], rfl, by simp⟩
  | arr l =>
    cases l with
    | nil => exact Or.inl rfl
    | cons a t =>
      refine Or.inr ⟨a :: t, ?_, by simp⟩
      rfl
  | undefined => exact Or.inl rfl
  | null => exact Or.inl rfl
  | bool b => exact Or.inl rfl
  | num n => exact Or.inl rfl
  | obj fields => exact Or.inl rfl
  | func => exact Or.inl rfl
  | regexp src => exact Or.inl rfl

theorem normalizeEnvironments_string (s : String) :
    normalizeEnvironments (.str s) = .arr [.str s] := rfl

theorem normalizeEnvironments_revert (v : JSValue)
    (hstr : isStringJS v = false)
    (harr : isArrayJS v = false ∨ isEmptyJS v = true) :
    normalizeEnvironments v = .null := by
  unfold normalizeEnvironments
  cases hu : isUndefinedJS v with
  | true => simp
  | false =>
    have hcond : (!(isArrayJS v) || isEmptyJS v) = true := by
      rcases harr with h | h <;> simp [h]
    simp [hstr, hcond]

theorem normalizeParamsRegex_obj (prf : List (String × JSValue)) :
    normalizeParamsRegex (.obj prf) = .obj (cleanParamsRegexFields prf) := by
  unfold normalizeParamsRegex
  cases prf with
  | nil => rfl
  | cons kv t => rfl

theorem cleanParamsRegexFields_strings (prf : List (String × JSValue))
    (kv : String × JSValue) (hmem : kv ∈ cleanParamsRegexFields prf) :
    ∃ s, kv.2 = .str s := by
  unfold cleanParamsRegexFields at hmem
  obtain ⟨a, _, ha⟩ := List.mem_filterMap.mp hmem
  cases hv : a.2 with
  | str s =>
    rw [hv] at ha
    simp only [Option.some.injEq] at ha
    exact ⟨s, by rw [← ha]⟩
  | regexp src =>
    rw [hv] at ha
    simp only [Option.some.injEq] at ha
    exact ⟨src, by rw [← ha]⟩
  | undefined => rw [hv] at ha; simp at ha
  | null => rw [hv] at ha; simp at ha
  | bool b => rw [hv] at ha; simp at ha
  | num n => rw [hv] at ha; simp at ha
  | arr l => rw [hv] at ha; simp at ha
  | obj fields => rw [hv] at ha; simp at ha
  | func => rw [hv] at ha; simp at ha

theorem cleanParamsRegexFields_regexp (prf : List (String × JSValue))
    (k src : String) (hmem : (k, .regexp src) ∈ prf) :
    (k, JSValue.str src) ∈ cleanParamsRegexFields prf :=
  List.mem_filterMap.mpr ⟨(k, .regexp src), hmem, rfl⟩

theorem cleanParamsRegexFields_keep (prf : List (String × JSValue))
    (k s : String) (hmem : (k, .str s) ∈ prf) :
    (k, JSValue.str s) ∈ cleanParamsRegexFields prf :=
  List.mem_filterMap.mpr ⟨(k, .str s), hmem, rfl⟩

theorem normalizeParamsRegex_shape (v : JSValue) :
    ∃ pf, normalizeParamsRegex v = .obj pf ∧
      ∀ kv ∈ pf, ∃ s, kv.2 = JSValue.str s := by
  cases v with
  | obj fields =>
    exact ⟨cleanParamsRegexFields fields, normalizeParamsRegex_obj fields,
      cleanParamsRegexFields_strings fields⟩
  | undefined => exact ⟨[], rfl, by simp⟩
  | null => exact ⟨[], rfl, by simp⟩
  | bool b => exact ⟨[], by cases b <;> rfl, by simp⟩
  | num n => exact ⟨[], by unfold normalizeParamsRegex isObjectJS; simp, by simp⟩
  | str s => exact ⟨[], by unfold normalizeParamsRegex isObjectJS; simp, by simp⟩
  | arr l => exact ⟨[], by unfold normalizeParamsRegex isObjectJS; simp, by simp⟩
  | func => exact ⟨[], rfl, by simp⟩
  | regexp src => exact ⟨[], rfl, by simp⟩

/-- C7 counterexample: the per-file option resolver merges the raw options
over the defaults with `Object.assign`, so unknown fields (`foo`) and
malformed fields without a type check (`skip: 5`) are retained in the
result, not discarded — and the result is consequently not type-correct. -/
theorem optionResolvers_c7_counterexample :
    jsLookupL (parseRouteHandlerFields
        (.obj [("foo", .num 42), ("skip", .num 5)])) "foo" = some (.num 42) ∧
    jsLookupL (parseRouteHandlerFields
        (.obj [("foo", .num 42), ("skip", .num 5)])) "skip" = some (.num 5) :=
  ⟨rfl, rfl⟩

/-- C7 amended: both option resolvers are total functions into
fully-populated shapes; fields with a type check are replaced by their
documented default on failure while legal values pass through (the
registration resolver's eleven checks are listed in
`REGISTRATION_FIELD_CHECKS`); a single-string `environments` is promoted to
a one-element list and an empty or non-list value reverts to the unset
default `null`; every retained `paramsRegex` entry is a string (`RegExp`
values are replaced by their source, strings are kept, other values are
dropped); but unknown fields and fields without a type check (such as
`skip` and `isIndex`) are retained unchanged rather than discarded. -/
theorem optionResolvers_c7_amended :
    (∀ o, jsLookupL (parseRouteHandlerFields o) "environments" = some .null ∨
      ∃ l, jsLookupL (parseRouteHandlerFields o) "environments"
        = some (.arr l) ∧ l ≠ []) ∧
    (∀ fs s, ((fs : List (String × JSValue)).map Prod.fst).Nodup →
      jsLookupL fs "environments" = some (.str s) →
      jsLookupL (parseRouteHandlerFields (.obj fs)) "environments"
        = some (.arr [.str s])) ∧
    (∀ fs v, ((fs : List (String × JSValue)).map Prod.fst).Nodup →
      jsLookupL fs "environments" = some v → isStringJS v = false →
      (isArrayJS v = false ∨ isEmptyJS v = true) →
      jsLookupL (parseRouteHandlerFields (.obj fs)) "environments"
        = some .null) ∧
    (∀ o, ∃ pf, jsLookupL (parseRouteHandlerFields o) "paramsRegex"
        = some (.obj pf) ∧ ∀ kv ∈ pf, ∃ s, kv.2 = JSValue.str s) ∧
    (∀ fs prf, jsLookupL (fs : List (String × JSValue)) "paramsRegex"
        = some (.obj prf) →
      jsLookupL (parseRouteHandlerFields (.obj fs)) "paramsRegex"
        = some (.obj (cleanParamsRegexFields prf))) ∧
    (∀ prf k src, ((k : String), JSValue.regexp src) ∈
        (prf : List (String × JSValue)) →
      (k, JSValue.str src) ∈ cleanParamsRegexFields prf) ∧
    (∀ prf k s, ((k : String), JSValue.str s) ∈
        (prf : List (String × JSValue)) →
      (k, JSValue.str s) ∈ cleanParamsRegexFields prf) ∧
    (∀ fs k v, ((fs : List (String × JSValue)).map Prod.fst).Nodup →
      k ≠ "environments" → k ≠ "paramsRegex" → k ≠ "metadata" →
      (k, v) ∈ fs →
      jsLookupL (parseRouteHandlerFields (.obj fs)) k = some v) ∧
    (∀ o, isObjectJS o = false →
      parseRouteRegistrationFields o = DEFAULT_OPTIONS_FIELDS) ∧
    (∀ o, isObjectJS o = true → ∀ spec ∈ REGISTRATION_FIELD_CHECKS,
      spec.2.1 (jsGetL (parseRouteRegistrationFields o) spec.1) = true ∨
      jsGetL (parseRouteRegistrationFields o) spec.1 = spec.2.2) := by
  refine ⟨?_, ?_, ?_, ?_, ?_, ?_, ?_, ?_, ?_, ?_⟩
  · intro o
    cases ho : isObjectJS o with
    | false =>
      refine Or.inl ?_
      unfold parseRouteHandlerFields
      rw [if_pos (by simp [ho])]
      rfl
    | true =>
      rcases normalizeEnvironments_shape
          (jsGetL (objAssign DEFAULT_ROUTE_OPTIONS_FIELDS (ownProps o))
            "environments") with h | ⟨l, hl, hne⟩
      · exact Or.inl (by rw [parseRouteHandlerFields_env o ho, h])
      · exact Or.inr ⟨l, by rw [parseRouteHandlerFields_env o ho, hl], hne⟩
  · intro fs s hnd hl
    rw [parseRouteHandlerFields_env (.obj fs) rfl]
    have hget : jsGetL (objAssign DEFAULT_ROUTE_OPTIONS_FIELDS
        (ownProps (.obj fs))) "environments" = .str s := by
      unfold jsGetL
      rw [show ownProps (.obj fs) = fs from rfl,
        jsLookupL_objAssign_mem fs "environments" (.str s)
          DEFAULT_ROUTE_OPTIONS_FIELDS hnd (jsLookupL_eq_some_mem fs _ _ hl)]
      rfl
    rw [hget, normalizeEnvironments_string]
  · intro fs v hnd hl hstr harr
    rw [parseRouteHandlerFields_env (.obj fs) rfl]
    have hget : jsGetL (objAssign DEFAULT_ROUTE_OPTIONS_FIELDS
        (ownProps (.obj fs))) "environments" = v := by
      unfold jsGetL
      rw [show ownProps (.obj fs) = fs from rfl,
        jsLookupL_objAssign_mem fs "environments" v
          DEFAULT_ROUTE_OPTIONS_FIELDS hnd (jsLookupL_eq_some_mem fs _ _ hl)]
      rfl
    rw [hget, normalizeEnvironments_revert v hstr harr]
  · intro o
    cases ho : isObjectJS o with
    | false =>
      refine ⟨[], ?_, by simp⟩
      unfold parseRouteHandlerFields
      rw [if_pos (by simp [ho])]
      rfl
    | true =>
      obtain ⟨pf, hpf, hstrs⟩ := normalizeParamsRegex_shape
        (jsGet o "paramsRegex")
      exact ⟨pf, by rw [parseRouteHandlerFields_paramsRegex o ho, hpf], hstrs⟩
  · intro fs prf hl
    rw [parseRouteHandlerFields_paramsRegex (.obj fs) rfl]
    have hget : jsGet (.obj fs) "paramsRegex" = .obj prf := by
      show (jsLookupL fs "paramsRegex").getD JSValue.undefined = JSValue.obj prf
      rw [hl]
      rfl
    rw [hget, normalizeParamsRegex_obj]
  · exact cleanParamsRegexFields_regexp
  · exact cleanParamsRegexFields_keep
  · exact parseRouteHandlerFields_retain
  · intro o ho
    unfold parseRouteRegistrationFields
    rw [if_pos (by simp [ho])]
  · intro o ho spec hspec
    have hform : parseRouteRegistrationFields o
        = REGISTRATION_FIELD_CHECKS.foldl
            (fun fs spec => clampStep fs spec.1 spec.2.1 spec.2.2)
            (objAssign DEFAULT_OPTIONS_FIELDS (ownProps o)) := by
      unfold parseRouteRegistrationFields
      rw [if_neg (by simp [ho])]
    rw [hform]
    exact jsGetL_clampChain_sound REGISTRATION_FIELD_CHECKS spec
      (objAssign DEFAULT_OPTIONS_FIELDS (ownProps o)) (by decide) hspec

theorem optionResolvers_c7_amended_witness :
    jsLookupL (parseRouteHandlerFields
        (.obj [("environments", .str "production")])) "environments"
      = some (.arr [.str "production"]) :=
  optionResolvers_c7_amended.2.1 [("environments", .str "production")]
    "production" (by decide) rfl
